import Mathlib

/-!
Verification of the media-library organization pipeline (tree scanning,
plan validation, and the safe-execution engine with backup/undo support).

The Python modules are shallowly embedded:
* a filesystem is an association list from full path strings to entries
  (kind, byte size, modification time);
* `datetime.now()` values are threaded explicitly as `DT` values carrying
  absolute seconds and microseconds; `strftime` with a second-resolution
  format is embedded as a decimal rendering of the seconds field, and
  `isoformat` (microsecond resolution) additionally renders microseconds;
* persisted stores (backup records under the backup directory, execution
  reports under the reports directory) are association lists from file
  name to record, where writing an existing name overwrites it.
-/

namespace OrganizeMedia

/-- Decimal digits of a natural number, least significant first, computed
with explicit fuel so that the definition is structurally recursive. -/
def decDigitsAux : Nat → Nat → List Nat
  | 0, _ => []
  | fuel + 1, n => if n = 0 then [] else n % 10 :: decDigitsAux fuel (n / 10)

/-- Value of a little-endian digit list. -/
def digitsVal : List Nat → Nat
  | [] => 0
  | d :: ds => d + 10 * digitsVal ds

/-- Decimal rendering of a natural number (embeds Python str over int). -/
def toDec (n : Nat) : String :=
  if n = 0 then "0" else ⟨((decDigitsAux n n).reverse.map Nat.digitChar)⟩

/-- Zero-padded two-digit rendering, the embedding of a 02d format spec. -/
def padTwo (n : Nat) : String :=
  if n < 10 then "0" ++ toDec n else toDec n

/-- Python str.startswith on the underlying character lists. -/
def strStartsWith (s pre : String) : Bool :=
  pre.data.isPrefixOf s.data

/-- Python str.endswith on the underlying character lists. -/
def strEndsWith (s suf : String) : Bool :=
  suf.data.isSuffixOf s.data

/-- Python string comparison: lexicographic by character, decided on the
underlying character lists (equivalent to the standard string order). -/
def strLtD (a b : String) : Bool := decide (a.data < b.data)

theorem strLtD_iff_lt (a b : String) : strLtD a b = true ↔ a < b := by
  unfold strLtD
  rw [decide_eq_true_eq]
  exact String.lt_iff_toList_lt.symm

/-- Components of a path string, split at the slash character. -/
def splitPath (p : String) : List String :=
  (p.data.splitOn '/').map String.mk

/-- Rendering of path components back to a path string. -/
def renderPath (cs : List String) : String :=
  ⟨List.intercalate ['/'] (cs.map String.data)⟩

/-- Parent of a path, as produced by pathlib (all components but the last). -/
def parentPath (p : String) : String :=
  renderPath (splitPath p).dropLast

/-- Last component of a path (pathlib name). -/
def baseName (p : String) : String :=
  ((splitPath p).getLastD "")

/-- Joining a relative suggestion path onto the base path, the embedding of
the pathlib slash operator followed by str. -/
def joinRel (base rel : String) : String :=
  base ++ "/" ++ rel

/-- Stem and suffix of a file name following the pathlib rule: the split
happens at the last dot provided it is neither the first nor the last
character of the name; the suffix includes the dot. -/
def splitStemExt (name : String) : String × String :=
  let segs := name.data.splitOn '.'
  if segs.length ≥ 2 then
    let ext := segs.getLastD []
    let stem := List.intercalate ['.'] segs.dropLast
    if ext ≠ [] ∧ stem ≠ [] then (⟨stem⟩, ⟨'.' :: ext⟩) else (name, "")
  else (name, "")

/-- All ancestors of a path including the path itself, shortest first
(the chain of directories that mkdir with parents has to ensure). -/
def pathPrefixes (p : String) : List String :=
  ((splitPath p).inits.drop 1).map renderPath

/-- Kind of a filesystem entry. -/
inductive EntryKind where
  | file
  | dir
deriving DecidableEq

/-- One filesystem entry: kind plus the stat fields the code reads
(st_size and st_mtime). -/
structure Entry where
  kind : EntryKind
  size : Nat
  mtime : Nat
deriving DecidableEq

/-- A filesystem is an association list from full path string to entry. -/
abbrev FS := List (String × Entry)

/-- Generic association-store write: overwrites any previous binding of
the same key (a file write replaces the file of that name). -/
def writeAssoc {β : Type} (l : List (String × β)) (k : String) (v : β) :
    List (String × β) :=
  (k, v) :: l.filter (fun e => e.1 ≠ k)

/-- Lookup of a path in the filesystem. -/
def lookupFS (fs : FS) (p : String) : Option Entry :=
  (fs.find? (fun e => e.1 = p)).map (fun e => e.2)

/-- Existence test (pathlib exists). -/
def existsFS (fs : FS) (p : String) : Bool :=
  (lookupFS fs p).isSome

/-- Removal of a path (pathlib unlink, once known to be a file). -/
def removeFS (fs : FS) (p : String) : FS :=
  fs.filter (fun e => e.1 ≠ p)

/-- Size reported by stat for an existing path, with the same fallback to
zero the backup-record code uses when the path vanished. -/
def statSizeFS (fs : FS) (p : String) : Nat :=
  match lookupFS fs p with
  | some e => e.size
  | none => 0

/-- Size used for reporting a move: the file size when the source is a
regular file, zero otherwise. -/
def fileSizeFS (fs : FS) (p : String) : Nat :=
  match lookupFS fs p with
  | some e => if e.kind = .file then e.size else 0
  | none => 0

/-- True when the entry at the path exists and is a directory. -/
def isDirAt (fs : FS) (p : String) : Bool :=
  match lookupFS fs p with
  | some e => e.kind = .dir
  | none => false

/-- Relocation of a path and everything beneath it (shutil.move): the
entry at the source key is re-keyed to the destination, and any entry
under the source directory is re-based below the destination. -/
def movePathFS (fs : FS) (src dest : String) : FS :=
  fs.map (fun e =>
    if e.1 = src then (dest, e.2)
    else if strStartsWith e.1 (src ++ "/") then
      (dest ++ (String.mk (e.1.data.drop (src ++ "/").data.length)), e.2)
    else e)

/-- A wall-clock instant: absolute seconds plus the microsecond part.
The second-resolution strftime used for backup and report file names sees
only the seconds; isoformat also sees the microseconds. -/
structure DT where
  sec : Nat
  micro : Nat
deriving DecidableEq

/-- Embedding of strftime with the Y-m-d H-M-S format (second resolution,
injective in the represented second). -/
def secondsStamp (d : DT) : String := toDec d.sec

/-- Embedding of datetime.isoformat (microsecond resolution). -/
def isoStamp (d : DT) : String := toDec d.sec ++ "." ++ toDec d.micro

/-- File name of a backup record. -/
def backupFileName (d : DT) : String := "backup_" ++ secondsStamp d ++ ".json"

/-- One AI organization suggestion (ai_organizer.OrganizationSuggestion). -/
structure OrganizationSuggestion where
  source_path : String
  destination_path : String
  operation : String
  confidence : ℚ
  reason : String
deriving DecidableEq

/-- A complete organization plan (ai_organizer.OrganizationPlan). -/
structure OrganizationPlan where
  show_name : String
  year : Option Int
  suggestions : List OrganizationSuggestion
  summary : String
  warnings : List String
deriving DecidableEq

/-- Result of one filesystem operation (file_operations.OperationResult). -/
structure OperationResult where
  success : Bool
  operation : String
  source_path : String
  destination_path : String
  error_message : Option String := none
  bytes_moved : Option Nat := none
deriving DecidableEq

/-- Execution report of a plan run (file_operations.ExecutionReport). -/
structure ExecutionReport where
  plan_name : String
  start_time : DT
  end_time : Option DT
  total_operations : Nat
  successful_operations : Nat
  failed_operations : Nat
  results : List OperationResult
  total_bytes_moved : Nat
  dry_run : Bool
deriving DecidableEq

/-- One persisted backup record (contents of a backup json file). -/
structure BackupInfo where
  timestamp : String
  operation : String
  source : String
  destination : String
  source_size : Nat
deriving DecidableEq

/-- Constructor configuration of FileOperations. -/
structure FOConfig where
  base_path : String
  dry_run : Bool
  backup_enabled : Bool
deriving DecidableEq

/-- The mutable world the engine acts on: the filesystem plus the two
persisted stores (backup records and execution reports). -/
structure FOState where
  fs : FS
  backups : List (String × BackupInfo)
  reports : List (String × ExecutionReport)
deriving DecidableEq

/-- Creation of one directory entry, as one step of mkdir with parents:
an existing directory is fine, an existing non-directory is an error. -/
def mkdirOne (fs : FS) (now : DT) (q : String) : FS × Option String :=
  match lookupFS fs q with
  | some e =>
    if e.kind = .dir then (fs, none)
    else (fs, some ("NotADirectoryError: " ++ q))
  | none => (writeAssoc fs q ⟨.dir, 0, now.sec⟩, none)

/-- Sequential creation of a chain of directories, stopping at the first
error (the embedding of pathlib mkdir with parents and exist_ok). -/
def mkdirChain (fs : FS) (now : DT) : List String → FS × Option String
  | [] => (fs, none)
  | q :: qs =>
    let r := mkdirOne fs now q
    match r.2 with
    | some e => (r.1, some e)
    | none => mkdirChain r.1 now qs

/-- mkdir with parents and exist_ok for a full path. -/
def mkdirParents (fs : FS) (now : DT) (p : String) : FS × Option String :=
  mkdirChain fs now (pathPrefixes p)

/-- FileOperations should-overwrite policy: overwrite when the source is
strictly larger, or equally large and strictly newer. The caller has
already checked that the source exists. -/
def shouldOverwrite (fs : FS) (srcP destP : String) : Bool :=
  match lookupFS fs destP with
  | none => false
  | some de =>
    let se := (lookupFS fs srcP).getD ⟨.file, 0, 0⟩
    if se.size > de.size then true
    else if se.size = de.size then decide (se.mtime > de.mtime)
    else false

/-- Candidate disambiguated destination for a given counter: the stem,
a dot, the zero-padded counter, and the original extension, inside the
original parent directory. -/
def candidateName (destP : String) (c : Nat) : String :=
  let se := splitStemExt (baseName destP)
  parentPath destP ++ "/" ++ se.1 ++ "." ++ padTwo c ++ se.2

/-- Search loop of get-unique-destination, with explicit fuel (the real
loop terminates because the filesystem is finite). -/
def uniqueDestAux (fs : FS) (destP : String) : Nat → Nat → String
  | 0, c => candidateName destP c
  | fuel + 1, c =>
    let p := candidateName destP c
    if existsFS fs p then uniqueDestAux fs destP fuel (c + 1) else p

/-- FileOperations get-unique-destination: the first counter from 1 whose
candidate path does not exist. Fuel one larger than the filesystem size
always suffices. -/
def getUniqueDestination (fs : FS) (destP : String) : String :=
  uniqueDestAux fs destP (fs.length + 1) 1

/-- FileOperations create-directory on one suggestion. -/
def createDirectory (cfg : FOConfig) (st : FOState) (now : DT)
    (s : OrganizationSuggestion) : FOState × OperationResult :=
  let destP := joinRel cfg.base_path s.destination_path
  if cfg.dry_run then
    (st, ⟨true, "create_directory", "", destP, none, none⟩)
  else if existsFS st.fs destP then
    (st, ⟨true, "create_directory", "", destP, none, none⟩)
  else
    let r := mkdirParents st.fs now destP
    match r.2 with
    | none => ({ st with fs := r.1 }, ⟨true, "create_directory", "", destP, none, none⟩)
    | some e => ({ st with fs := r.1 }, ⟨false, "create_directory", "", destP, some e, none⟩)

/-- FileOperations move-file on one suggestion. Mirrors the source flow:
source check, size capture, dry-run short cut, backup record, parent
mkdir, conflict resolution (overwrite or disambiguate), then the move. -/
def moveFile (cfg : FOConfig) (st : FOState) (now : DT)
    (s : OrganizationSuggestion) : FOState × OperationResult :=
  let srcP := joinRel cfg.base_path s.source_path
  let destP := joinRel cfg.base_path s.destination_path
  if ¬ existsFS st.fs srcP then
    (st, ⟨false, "move", srcP, destP,
      some ("Source file not found: " ++ srcP), none⟩)
  else
    let fsize := fileSizeFS st.fs srcP
    if cfg.dry_run then
      (st, ⟨true, "move", srcP, destP, none, some fsize⟩)
    else
      let backups' :=
        if cfg.backup_enabled then
          writeAssoc st.backups (backupFileName now)
            ⟨isoStamp now, "move", srcP, destP, statSizeFS st.fs srcP⟩
        else st.backups
      let st1 : FOState := { st with backups := backups' }
      let mk := mkdirParents st1.fs now (parentPath destP)
      match mk.2 with
      | some e => ({ st1 with fs := mk.1 }, ⟨false, "move", srcP, destP, some e, none⟩)
      | none =>
        let fs1 := mk.1
        if existsFS fs1 destP then
          if shouldOverwrite fs1 srcP destP then
            match lookupFS fs1 destP with
            | some de =>
              if de.kind = .dir then
                ({ st1 with fs := fs1 },
                  ⟨false, "move", srcP, destP, some ("IsADirectoryError: " ++ destP), none⟩)
              else
                ({ st1 with fs := movePathFS (removeFS fs1 destP) srcP destP },
                  ⟨true, "move", srcP, destP, none, some fsize⟩)
            | none =>
              ({ st1 with fs := fs1 },
                ⟨false, "move", srcP, destP, some ("FileNotFoundError: " ++ destP), none⟩)
          else
            let destP' := getUniqueDestination fs1 destP
            ({ st1 with fs := movePathFS fs1 srcP destP' },
              ⟨true, "move", srcP, destP', none, some fsize⟩)
        else
          ({ st1 with fs := movePathFS fs1 srcP destP },
            ⟨true, "move", srcP, destP, none, some fsize⟩)

/-- Dispatch of one suggestion inside execute-plan. -/
def execOne (cfg : FOConfig) (st : FOState) (now : DT)
    (s : OrganizationSuggestion) : FOState × OperationResult :=
  if s.operation = "create_directory" then createDirectory cfg st now s
  else if s.operation = "move" then moveFile cfg st now s
  else
    (st, ⟨false, s.operation, s.source_path, s.destination_path,
      some ("Unknown operation: " ++ s.operation), none⟩)

/-- Sequential execution of the sorted suggestion list; each operation
observes the wall clock once (head of the remaining time list). -/
def execOps (cfg : FOConfig) (st : FOState) :
    List OrganizationSuggestion → List DT → FOState × List OperationResult
  | [], _ => (st, [])
  | s :: ss, ts =>
    let r := execOne cfg st (ts.headD ⟨0, 0⟩) s
    let rest := execOps cfg r.1 ss ts.tail
    (rest.1, r.2 :: rest.2)

/-- Sort key of execute-plan: directory creations first, then by
destination path. -/
def sortKey (s : OrganizationSuggestion) : Nat :=
  if s.operation = "create_directory" then 0 else 1

/-- Ordering used by execute-plan: Python sorted with the pair key
(group, destination path); a stable sort with respect to the
lexicographic order on that pair. -/
def suggLE (a b : OrganizationSuggestion) : Prop :=
  sortKey a < sortKey b ∨ (sortKey a = sortKey b ∧ a.destination_path ≤ b.destination_path)

instance : DecidableRel suggLE := fun a b =>
  @instDecidableOr _ _ (Nat.decLt _ _)
    (@instDecidableAnd _ _ (Nat.decEq _ _)
      (decidable_of_iff (strLtD b.destination_path a.destination_path = false)
        (by rw [← Bool.not_eq_true, strLtD_iff_lt]; exact not_lt)))

/-- The order in which execute-plan processes suggestions. -/
def executionOrder (l : List OrganizationSuggestion) : List OrganizationSuggestion :=
  List.insertionSort suggLE l

/-- Python truthiness of an optional byte count: present and nonzero. -/
def truthyBytes : Option Nat → Bool
  | none => false
  | some n => n != 0

/-- Contribution of one result to the running total of bytes moved, as
accumulated by the execute-plan loop. -/
def bytesContribution (r : OperationResult) : Nat :=
  if r.success && truthyBytes r.bytes_moved then r.bytes_moved.getD 0 else 0

/-- File name of a persisted execution report. -/
def reportFileName (startTime : DT) : String :=
  "execution_report_" ++ secondsStamp startTime ++ ".json"

/-- FileOperations execute-plan: sort, run every operation, assemble the
report, and unconditionally persist it. -/
def executePlan (cfg : FOConfig) (st : FOState) (plan : OrganizationPlan)
    (planName : String) (startTime endTime : DT) (times : List DT) :
    FOState × ExecutionReport :=
  let sorted := executionOrder plan.suggestions
  let run := execOps cfg st sorted times
  let results := run.2
  let report : ExecutionReport :=
    { plan_name := if planName = "" then "Organization of " ++ plan.show_name else planName
      start_time := startTime
      end_time := some endTime
      total_operations := plan.suggestions.length
      successful_operations := results.countP (fun r => r.success)
      failed_operations := results.countP (fun r => ¬ r.success)
      results := results
      total_bytes_moved := (results.map bytesContribution).sum
      dry_run := cfg.dry_run }
  ({ run.1 with reports := writeAssoc run.1.reports (reportFileName startTime) report },
    report)

/-- Choice of the most recent backup record: the maximal file name, the
first such file winning ties (descending stable sort, first element). -/
def pickLatest (l : List (String × BackupInfo)) : Option (String × BackupInfo) :=
  l.foldl (fun acc e =>
    match acc with
    | none => some e
    | some a => if strLtD a.1 e.1 = true then some e else acc) none

/-- FileOperations undo-last-operation: find the most recent backup
record; if it records a move whose destination still exists, move the
file back and delete the record, otherwise change nothing and fail. -/
def undoLastOperation (st : FOState) : FOState × Bool :=
  let files := st.backups.filter
    (fun e => strStartsWith e.1 "backup_" && strEndsWith e.1 ".json")
  match pickLatest files with
  | none => (st, false)
  | some kr =>
    if kr.2.operation = "move" && existsFS st.fs kr.2.destination then
      ({ st with
          fs := movePathFS st.fs kr.2.destination kr.2.source
          backups := st.backups.eraseP (fun e => e.1 = kr.1) }, true)
    else (st, false)

/-- True when some create-directory suggestion of the plan has a resolved
destination that is a string prefix of the resolved parent of the move
destination (the will-be-created check of validate-suggestions). -/
def parentWillBeCreated (plan : OrganizationPlan) (base : String)
    (destParent : String) : Bool :=
  (plan.suggestions.filter (fun s => s.operation = "create_directory")).any
    (fun s => strStartsWith destParent (joinRel base s.destination_path))

/-- Loop body of AIOrganizer validate-suggestions over the remaining
suggestions; the whole plan stays in scope for the will-be-created check. -/
def validateAux (plan : OrganizationPlan) (base : String) (fs : FS) :
    List OrganizationSuggestion → List OrganizationSuggestion × List String
  | [] => ([], [])
  | s :: rest =>
    let acc := validateAux plan base fs rest
    if s.operation = "create_directory" then
      if existsFS fs (joinRel base s.destination_path) then
        (acc.1, ("Directory already exists: " ++ s.destination_path) :: acc.2)
      else (s :: acc.1, acc.2)
    else if s.operation = "move" then
      if ¬ existsFS fs (joinRel base s.source_path) then
        (acc.1, ("Source file not found: " ++ s.source_path) :: acc.2)
      else if ¬ existsFS fs (parentPath (joinRel base s.destination_path)) ∧
          ¬ parentWillBeCreated plan base (parentPath (joinRel base s.destination_path)) then
        (acc.1, ("Destination directory doesn't exist: " ++
          parentPath (joinRel base s.destination_path)) :: acc.2)
      else (s :: acc.1, acc.2)
    else acc

/-- AIOrganizer validate-suggestions: partition of the plan into the
still-valid suggestions and the error messages. -/
def validateSuggestions (plan : OrganizationPlan) (base : String) (fs : FS) :
    List OrganizationSuggestion × List String :=
  validateAux plan base fs plan.suggestions

/-- Raw filesystem tree handed to the tree scanner: what walking the real
directory would observe (a directory additionally records whether listing
it is permitted). -/
inductive RawTree where
  | file (name : String) (size : Nat)
  | dir (name : String) (readable : Bool) (children : List RawTree)

/-- Name of a raw tree node. -/
def RawTree.name : RawTree → String
  | .file n _ => n
  | .dir n _ _ => n

/-- Media file metadata (tree_generator.MediaFile). -/
structure MediaFile where
  name : String
  path : String
  size : Nat
  extension : String
  is_video : Bool
  is_subtitle : Bool
  is_extra : Bool
deriving DecidableEq

/-- Tree node produced by the scanner (tree_generator.DirectoryNode). -/
structure DirectoryNode where
  name : String
  path : String
  type : String
  size : Option Nat := none
  children : Option (List DirectoryNode) := none
  media_file : Option MediaFile := none

def VIDEO_EXTENSIONS : List String :=
  [".mkv", ".mp4", ".avi", ".mov", ".wmv", ".flv", ".webm", ".m4v"]

def SUBTITLE_EXTENSIONS : List String :=
  [".srt", ".sub", ".idx", ".ass", ".ssa", ".vtt"]

def EXTRA_EXTENSIONS : List String :=
  [".nfo", ".jpg", ".jpeg", ".png", ".gif", ".txt", ".md"]

/-- Lower-cased version of a string (Python str.lower on extensions). -/
def strToLower (s : String) : String := ⟨s.data.map Char.toLower⟩

/-- TreeGenerator create-media-file. -/
def createMediaFile (fullPath : String) (name : String) (size : Nat) : MediaFile :=
  let ext := strToLower (splitStemExt name).2
  { name := name
    path := fullPath
    size := size
    extension := ext
    is_video := VIDEO_EXTENSIONS.contains ext
    is_subtitle := SUBTITLE_EXTENSIONS.contains ext
    is_extra := EXTRA_EXTENSIONS.contains ext }

/-- Recursive tree construction (TreeGenerator build-tree-node). Depth is
carried as remaining gas: a node at depth d of a scan bounded by m runs
with gas m + 1 - d, so gas zero is exactly depth exceeding the bound and
yields no node; a pruned or hidden child is dropped with no placeholder.
Children are visited in sorted name order (Python sorted over paths that
share their parent). -/
def buildTreeNode (includeHidden : Bool) :
    Nat → String → RawTree → Option DirectoryNode
  | 0, _, _ => none
  | gas + 1, selfPath, t =>
    if ¬ includeHidden ∧ strStartsWith t.name "." then none
    else
      match t with
      | .file n sz =>
        some { name := n, path := selfPath, type := "file", size := some sz,
               children := none, media_file := some (createMediaFile selfPath n sz) }
      | .dir n readable cs =>
        if readable then
          some { name := n, path := selfPath, type := "directory", size := none,
                 children := some ((List.insertionSort
                     (fun a b : RawTree => a.name ≤ b.name) cs).filterMap
                   (fun c => buildTreeNode includeHidden gas (selfPath ++ "/" ++ c.name) c)),
                 media_file := none }
        else none

/-- TreeGenerator generate-tree: scan from the root (depth zero) down to
the given maximum depth. -/
def generateTree (rootPath : String) (root : RawTree) (maxDepth : Nat)
    (includeHidden : Bool) : Option DirectoryNode :=
  buildTreeNode includeHidden (maxDepth + 1) rootPath root


/-! Decimal rendering: roundtrip and injectivity. -/

theorem digitsVal_decDigitsAux :
    ∀ fuel n, n ≤ fuel → digitsVal (decDigitsAux fuel n) = n := by
  intro fuel
  induction fuel with
  | zero =>
    intro n h
    have : n = 0 := Nat.le_zero.mp h
    subst this; rfl
  | succ fuel ih =>
    intro n h
    by_cases hn : n = 0
    · subst hn; simp [decDigitsAux, digitsVal]
    · have hdiv : n / 10 ≤ fuel := by
        have : n / 10 < n := Nat.div_lt_self (Nat.pos_of_ne_zero hn) (by decide)
        omega
      simp only [decDigitsAux, if_neg hn, digitsVal]
      rw [ih _ hdiv]
      exact Nat.mod_add_div n 10

theorem decDigitsAux_lt_ten :
    ∀ fuel n d, d ∈ decDigitsAux fuel n → d < 10 := by
  intro fuel
  induction fuel with
  | zero => intro n d h; simp [decDigitsAux] at h
  | succ fuel ih =>
    intro n d h
    by_cases hn : n = 0
    · subst hn; simp [decDigitsAux] at h
    · simp only [decDigitsAux, if_neg hn, List.mem_cons] at h
      rcases h with h | h
      · subst h; exact Nat.mod_lt _ (by decide)
      · exact ih _ _ h

theorem decDigitsAux_ne_nil (n : Nat) (hn : n ≠ 0) :
    decDigitsAux n n ≠ [] := by
  intro h
  have := digitsVal_decDigitsAux n n (Nat.le_refl n)
  rw [h] at this
  exact hn (by simpa [digitsVal] using this.symm)

theorem decDigitsAux_getLast_ne_zero :
    ∀ fuel n d, n ≤ fuel → (decDigitsAux fuel n).getLast? = some d → d ≠ 0 := by
  intro fuel
  induction fuel with
  | zero => intro n d _ h; simp [decDigitsAux] at h
  | succ fuel ih =>
    intro n d hle h
    by_cases hn : n = 0
    · subst hn; simp [decDigitsAux] at h
    · have hdiv : n / 10 ≤ fuel := by
        have : n / 10 < n := Nat.div_lt_self (Nat.pos_of_ne_zero hn) (by decide)
        omega
      simp only [decDigitsAux, if_neg hn] at h
      rcases hrest : decDigitsAux fuel (n / 10) with _ | ⟨b, t⟩
      · rw [hrest] at h
        simp at h
        have hval := digitsVal_decDigitsAux fuel (n / 10) hdiv
        rw [hrest] at hval
        have hndiv : n / 10 = 0 := by simpa [digitsVal] using hval.symm
        intro hd0
        rw [hd0] at h
        omega
      · rw [hrest] at h
        rw [List.getLast?_cons_cons] at h
        exact ih (n / 10) d hdiv (by rw [hrest]; exact h)

theorem digitChar_inj_lt :
    ∀ a, a < 10 → ∀ b, b < 10 → Nat.digitChar a = Nat.digitChar b → a = b := by decide

theorem map_digitChar_inj :
    ∀ l1 l2 : List Nat, (∀ d ∈ l1, d < 10) → (∀ d ∈ l2, d < 10) →
      l1.map Nat.digitChar = l2.map Nat.digitChar → l1 = l2 := by
  intro l1
  induction l1 with
  | nil => intro l2 _ _ h; cases l2 <;> simp_all
  | cons a t ih =>
    intro l2 h1 h2 h
    cases l2 with
    | nil => simp at h
    | cons b t2 =>
      simp only [List.map, List.cons.injEq] at h
      have ha : a = b :=
        digitChar_inj_lt a (h1 a (by simp)) b (h2 b (by simp)) h.1
      have ht : t = t2 := ih t2 (fun d hd => h1 d (by simp [hd]))
        (fun d hd => h2 d (by simp [hd])) h.2
      rw [ha, ht]

theorem strExt {a b : String} (h : a.data = b.data) : a = b := by
  cases a; cases b; exact congrArg String.mk h

theorem toDec_inj {n m : Nat} (h : toDec n = toDec m) : n = m := by
  have hd := congrArg String.data h
  by_cases hn : n = 0 <;> by_cases hm : m = 0
  · omega
  · exfalso
    simp only [toDec, if_pos hn, if_neg hm] at hd
    have hd' : ((decDigitsAux m m).reverse.map Nat.digitChar) = ['0'] := hd.symm
    have hlen : (decDigitsAux m m).reverse.length = 1 := by
      have := congrArg List.length hd'
      simpa using this
    obtain ⟨d, hdm⟩ := List.length_eq_one.mp hlen
    rw [hdm] at hd'
    simp only [List.map, List.cons.injEq] at hd'
    have hd10 : d < 10 := decDigitsAux_lt_ten m m d (by
      have : d ∈ (decDigitsAux m m).reverse := by rw [hdm]; simp
      simpa using this)
    have hd0 : d = 0 := digitChar_inj_lt d hd10 0 (by decide) (by simpa using hd'.1)
    have hrev : decDigitsAux m m = [d] := by
      have := congrArg List.reverse hdm
      simpa using this
    have hval := digitsVal_decDigitsAux m m (Nat.le_refl m)
    rw [hrev] at hval
    simp [digitsVal, hd0] at hval
    exact hm hval.symm
  · exfalso
    simp only [toDec, if_neg hn, if_pos hm] at hd
    have hd' : ((decDigitsAux n n).reverse.map Nat.digitChar) = ['0'] := hd
    have hlen : (decDigitsAux n n).reverse.length = 1 := by
      have := congrArg List.length hd'
      simpa using this
    obtain ⟨d, hdm⟩ := List.length_eq_one.mp hlen
    rw [hdm] at hd'
    simp only [List.map, List.cons.injEq] at hd'
    have hd10 : d < 10 := decDigitsAux_lt_ten n n d (by
      have : d ∈ (decDigitsAux n n).reverse := by rw [hdm]; simp
      simpa using this)
    have hd0 : d = 0 := digitChar_inj_lt d hd10 0 (by decide) (by simpa using hd'.1)
    have hrev : decDigitsAux n n = [d] := by
      have := congrArg List.reverse hdm
      simpa using this
    have hval := digitsVal_decDigitsAux n n (Nat.le_refl n)
    rw [hrev] at hval
    simp [digitsVal, hd0] at hval
    exact hn hval.symm
  · simp only [toDec, if_neg hn, if_neg hm] at hd
    have hrev : (decDigitsAux n n).reverse = (decDigitsAux m m).reverse :=
      map_digitChar_inj _ _
        (fun d hd' => decDigitsAux_lt_ten n n d (by simpa using hd'))
        (fun d hd' => decDigitsAux_lt_ten m m d (by simpa using hd')) hd
    have heq : decDigitsAux n n = decDigitsAux m m := by
      have := congrArg List.reverse hrev
      simpa using this
    have h1 := digitsVal_decDigitsAux n n (Nat.le_refl n)
    have h2 := digitsVal_decDigitsAux m m (Nat.le_refl m)
    rw [heq] at h1
    omega

theorem toDec_head_ne (n : Nat) (hn : n ≠ 0) : (toDec n).data.head? ≠ some '0' := by
  simp only [toDec, if_neg hn]
  intro h
  have hne : decDigitsAux n n ≠ [] := decDigitsAux_ne_nil n hn
  have hh : ((decDigitsAux n n).reverse.map Nat.digitChar).head? =
      ((decDigitsAux n n).reverse.head?).map Nat.digitChar := by
    cases hrev : (decDigitsAux n n).reverse <;> simp
  rw [hh] at h
  rw [List.head?_reverse] at h
  rcases hlast : (decDigitsAux n n).getLast? with _ | d
  · rw [hlast] at h; simp at h
  · rw [hlast] at h
    have hdc : Nat.digitChar d = '0' := by simpa using h
    have hd0 : d ≠ 0 := decDigitsAux_getLast_ne_zero n n d (Nat.le_refl n) hlast
    have hd10 : d < 10 := decDigitsAux_lt_ten n n d (List.mem_of_getLast?_eq_some hlast)
    exact hd0 (digitChar_inj_lt d hd10 0 (by decide) hdc)

theorem padTwo_inj {a b : Nat} (h : padTwo a = padTwo b) : a = b := by
  unfold padTwo at h
  by_cases ha : a < 10 <;> by_cases hb : b < 10
  · rw [if_pos ha, if_pos hb] at h
    have hd := congrArg String.data h
    simp only [String.data_append] at hd
    exact toDec_inj (strExt (List.append_cancel_left hd))
  · exfalso
    rw [if_pos ha, if_neg hb] at h
    have hd := congrArg String.data h
    simp only [String.data_append] at hd
    have : (toDec b).data.head? = some '0' := by
      rw [← hd]; rfl
    exact toDec_head_ne b (by omega) this
  · exfalso
    rw [if_neg ha, if_pos hb] at h
    have hd := congrArg String.data h
    simp only [String.data_append] at hd
    have : (toDec a).data.head? = some '0' := by
      rw [hd]; rfl
    exact toDec_head_ne a (by omega) this
  · rw [if_neg ha, if_neg hb] at h
    exact toDec_inj h

/-! Unique-destination search: injectivity, existence, minimality. -/

theorem candidateName_inj (destP : String) {a b : Nat}
    (h : candidateName destP a = candidateName destP b) : a = b := by
  unfold candidateName at h
  have hd := congrArg String.data h
  simp only [String.data_append] at hd
  rw [List.append_assoc, List.append_assoc, List.append_assoc, List.append_assoc,
    List.append_assoc, List.append_assoc, List.append_assoc, List.append_assoc] at hd
  have h1 := List.append_cancel_left hd
  have h2 := List.append_cancel_left h1
  have h3 := List.append_cancel_left h2
  have h4 := List.append_cancel_left h3
  exact padTwo_inj (strExt (List.append_cancel_right h4))

theorem existsFS_iff_mem_keys (fs : FS) (p : String) :
    existsFS fs p = true ↔ p ∈ fs.map Prod.fst := by
  induction fs with
  | nil => simp [existsFS, lookupFS]
  | cons e t ih =>
    by_cases he : e.1 = p
    · simp [existsFS, lookupFS, List.find?, he]
    · have hb : (e.1 = p : Bool) = false := by
        simpa using he
      simp only [existsFS, lookupFS, List.find?, hb, List.map, List.mem_cons]
      rw [← lookupFS, ← existsFS, ih]
      constructor
      · intro hm; exact Or.inr hm
      · rintro (hm | hm)
        · exact absurd hm.symm he
        · exact hm

theorem exists_unused_candidate (fs : FS) (destP : String) :
    ∃ j, j ≤ fs.length ∧ existsFS fs (candidateName destP (1 + j)) = false := by
  by_contra hcon
  push_neg at hcon
  have hall : ∀ j, j ≤ fs.length → existsFS fs (candidateName destP (1 + j)) = true := by
    intro j hj
    have := hcon j hj
    cases hb : existsFS fs (candidateName destP (1 + j))
    · exact absurd hb this
    · rfl
  have hinj : Set.InjOn (fun j => candidateName destP (1 + j))
      (Finset.range (fs.length + 1) : Finset Nat) := by
    intro x _ y _ hxy
    have := candidateName_inj destP hxy
    omega
  have hsub : (Finset.range (fs.length + 1)).image (fun j => candidateName destP (1 + j)) ⊆
      (fs.map Prod.fst).toFinset := by
    intro p hp
    rcases Finset.mem_image.mp hp with ⟨j, hj, rfl⟩
    have hjle : j ≤ fs.length := by
      have := Finset.mem_range.mp hj
      omega
    rw [List.mem_toFinset]
    exact (existsFS_iff_mem_keys fs _).mp (hall j hjle)
  have hcard1 : ((Finset.range (fs.length + 1)).image
      (fun j => candidateName destP (1 + j))).card = fs.length + 1 := by
    rw [Finset.card_image_of_injOn hinj, Finset.card_range]
  have hcard2 := Finset.card_le_card hsub
  have hcard3 : (fs.map Prod.fst).toFinset.card ≤ fs.length := by
    have := List.toFinset_card_le (l := fs.map Prod.fst)
    simpa using this
  omega

theorem uniqueDestAux_spec (fs : FS) (destP : String) :
    ∀ fuel start,
      (∃ j, j < fuel ∧ existsFS fs (candidateName destP (start + j)) = false) →
      ∃ j, existsFS fs (candidateName destP (start + j)) = false ∧
        (∀ i, i < j → existsFS fs (candidateName destP (start + i)) = true) ∧
        uniqueDestAux fs destP fuel start = candidateName destP (start + j) := by
  intro fuel
  induction fuel with
  | zero => intro start h; rcases h with ⟨j, hj, _⟩; omega
  | succ fuel ih =>
    intro start h
    cases hexc : existsFS fs (candidateName destP start)
    · refine ⟨0, by simpa using hexc, ?_, ?_⟩
      · intro i hi; omega
      · simp [uniqueDestAux, hexc]
    · rcases h with ⟨j, hj, hju⟩
      have hj0 : j ≠ 0 := by
        intro h0
        rw [h0] at hju
        simp at hju
        rw [hju] at hexc
        exact Bool.noConfusion hexc
      have hrec : ∃ j, j < fuel ∧
          existsFS fs (candidateName destP (start + 1 + j)) = false := by
        refine ⟨j - 1, by omega, ?_⟩
        have : start + 1 + (j - 1) = start + j := by omega
        rw [this]
        exact hju
      rcases ih (start + 1) hrec with ⟨j2, hj2f, hj2min, hj2eq⟩
      refine ⟨j2 + 1, ?_, ?_, ?_⟩
      · have : start + (j2 + 1) = start + 1 + j2 := by omega
        rw [this]
        exact hj2f
      · intro i hi
        cases i with
        | zero => simpa using hexc
        | succ i' =>
          have : start + (i' + 1) = start + 1 + i' := by omega
          rw [this]
          exact hj2min i' (by omega)
      · have harith : start + (j2 + 1) = start + 1 + j2 := by omega
        rw [harith]
        simp only [uniqueDestAux, hexc]
        exact hj2eq

theorem getUniqueDestination_spec (fs : FS) (destP : String) :
    ∃ c, 0 < c ∧
      getUniqueDestination fs destP = candidateName destP c ∧
      existsFS fs (candidateName destP c) = false ∧
      ∀ i, 0 < i → i < c → existsFS fs (candidateName destP i) = true := by
  rcases exists_unused_candidate fs destP with ⟨j, hjle, hjf⟩
  have hex : ∃ j, j < fs.length + 1 ∧
      existsFS fs (candidateName destP (1 + j)) = false := ⟨j, by omega, hjf⟩
  rcases uniqueDestAux_spec fs destP (fs.length + 1) 1 hex with ⟨j2, hf, hmin, heq⟩
  refine ⟨1 + j2, by omega, heq, hf, ?_⟩
  intro i h0 hlt
  have : i = 1 + (i - 1) := by omega
  rw [this]
  exact hmin (i - 1) (by omega)


/-! Filesystem store lemmas. -/

theorem isPrefixOf_eq_true_iff {α : Type} [BEq α] [LawfulBEq α] :
    ∀ a b : List α, a.isPrefixOf b = true ↔ ∃ t, b = a ++ t := by
  intro a
  induction a with
  | nil => intro b; simp [List.isPrefixOf]
  | cons x xs ih =>
    intro b
    cases b with
    | nil => simp [List.isPrefixOf]
    | cons y ys =>
      simp only [List.isPrefixOf, Bool.and_eq_true, beq_iff_eq]
      rw [ih ys]
      constructor
      · rintro ⟨rfl, t, rfl⟩
        exact ⟨t, rfl⟩
      · rintro ⟨t, ht⟩
        simp only [List.cons_append, List.cons.injEq] at ht
        exact ⟨ht.1.symm, t, ht.2⟩

theorem strStartsWith_iff (s pre : String) :
    strStartsWith s pre = true ↔ ∃ t, s.data = pre.data ++ t :=
  isPrefixOf_eq_true_iff pre.data s.data

theorem strStartsWith_append (a b : String) : strStartsWith (a ++ b) a = true := by
  rw [strStartsWith_iff]
  exact ⟨b.data, String.data_append a b⟩

theorem not_strStartsWith_of_longer (s pre : String)
    (h : s.data.length < pre.data.length) : strStartsWith s pre = false := by
  cases hb : strStartsWith s pre
  · rfl
  · exfalso
    rcases (strStartsWith_iff s pre).mp hb with ⟨t, ht⟩
    have := congrArg List.length ht
    rw [List.length_append] at this
    omega

theorem lookupFS_nil (p : String) : lookupFS [] p = none := rfl

theorem lookupFS_cons (e : String × Entry) (t : FS) (p : String) :
    lookupFS (e :: t) p = if e.1 = p then some e.2 else lookupFS t p := by
  by_cases h : e.1 = p <;> simp [lookupFS, List.find?, h]

theorem removeFS_cons (e : String × Entry) (t : FS) (p : String) :
    removeFS (e :: t) p = if e.1 = p then removeFS t p else e :: removeFS t p := by
  by_cases h : e.1 = p <;> simp [removeFS, List.filter, h]

theorem movePathFS_cons (e : String × Entry) (t : FS) (src dest : String) :
    movePathFS (e :: t) src dest =
      (if e.1 = src then (dest, e.2)
       else if strStartsWith e.1 (src ++ "/") = true then
         (dest ++ (String.mk (e.1.data.drop (src ++ "/").data.length)), e.2)
       else e) :: movePathFS t src dest := by
  simp only [movePathFS, List.map]

theorem writeAssocFS_eq (fs : FS) (k : String) (v : Entry) :
    writeAssoc fs k v = (k, v) :: removeFS fs k := rfl

theorem lookupFS_writeAssoc_self (fs : FS) (k : String) (v : Entry) :
    lookupFS (writeAssoc fs k v) k = some v := by
  rw [writeAssocFS_eq, lookupFS_cons]
  simp

theorem lookupFS_writeAssoc_ne (fs : FS) (k : String) (v : Entry) (p : String)
    (h : p ≠ k) : lookupFS (writeAssoc fs k v) p = lookupFS fs p := by
  rw [writeAssocFS_eq, lookupFS_cons, if_neg (fun hk => h hk.symm)]
  induction fs with
  | nil => rfl
  | cons e t ih =>
    rw [removeFS_cons]
    by_cases he : e.1 = k
    · rw [if_pos he, lookupFS_cons, if_neg (fun hp : e.1 = p => h (hp.symm.trans he))]
      exact ih
    · rw [if_neg he, lookupFS_cons, lookupFS_cons]
      by_cases hep : e.1 = p
      · rw [if_pos hep, if_pos hep]
      · rw [if_neg hep, if_neg hep]
        exact ih

theorem lookupFS_removeFS_self (fs : FS) (p : String) :
    lookupFS (removeFS fs p) p = none := by
  induction fs with
  | nil => rfl
  | cons e t ih =>
    rw [removeFS_cons]
    by_cases he : e.1 = p
    · rw [if_pos he]; exact ih
    · rw [if_neg he, lookupFS_cons, if_neg he]; exact ih

theorem lookupFS_removeFS_ne (fs : FS) (p q : String) (h : q ≠ p) :
    lookupFS (removeFS fs p) q = lookupFS fs q := by
  induction fs with
  | nil => rfl
  | cons e t ih =>
    rw [removeFS_cons]
    by_cases he : e.1 = p
    · rw [if_pos he, lookupFS_cons, if_neg (fun hq : e.1 = q => h (hq.symm.trans he))]
      exact ih
    · rw [if_neg he, lookupFS_cons, lookupFS_cons]
      by_cases heq : e.1 = q
      · rw [if_pos heq, if_pos heq]
      · rw [if_neg heq, if_neg heq]; exact ih

theorem lookupFS_movePathFS_dest (fs : FS) (src dest : String)
    (hchild : ∀ e ∈ fs, strStartsWith e.1 (src ++ "/") = false)
    (hdest : lookupFS fs dest = none) :
    lookupFS (movePathFS fs src dest) dest = lookupFS fs src := by
  induction fs with
  | nil => rfl
  | cons e t ih =>
    have hu : strStartsWith e.1 (src ++ "/") = false := hchild e (by simp)
    rw [lookupFS_cons] at hdest
    by_cases hed : e.1 = dest
    · rw [if_pos hed] at hdest; exact absurd hdest (by simp)
    · rw [if_neg hed] at hdest
      rw [movePathFS_cons, lookupFS_cons, lookupFS_cons]
      by_cases he : e.1 = src
      · rw [if_pos he, if_pos he]
        simp
      · rw [if_neg he, if_neg he, hu]
        simp only [Bool.false_eq_true, if_false, if_neg hed]
        exact ih (fun x hx => hchild x (by simp [hx])) hdest

theorem lookupFS_movePathFS_src (fs : FS) (src dest : String)
    (hchild : ∀ e ∈ fs, strStartsWith e.1 (src ++ "/") = false)
    (hsd : src ≠ dest) :
    lookupFS (movePathFS fs src dest) src = none := by
  induction fs with
  | nil => rfl
  | cons e t ih =>
    have hu : strStartsWith e.1 (src ++ "/") = false := hchild e (by simp)
    rw [movePathFS_cons, lookupFS_cons]
    by_cases he : e.1 = src
    · rw [if_pos he]
      simp only [if_neg (fun h : dest = src => hsd h.symm)]
      exact ih (fun x hx => hchild x (by simp [hx]))
    · rw [if_neg he, hu]
      simp only [Bool.false_eq_true, if_false, if_neg he]
      exact ih (fun x hx => hchild x (by simp [hx]))

theorem lookupFS_movePathFS_other (fs : FS) (src dest k : String)
    (hchild : ∀ e ∈ fs, strStartsWith e.1 (src ++ "/") = false)
    (hk1 : k ≠ src) (hk2 : k ≠ dest) :
    lookupFS (movePathFS fs src dest) k = lookupFS fs k := by
  induction fs with
  | nil => rfl
  | cons e t ih =>
    have hu : strStartsWith e.1 (src ++ "/") = false := hchild e (by simp)
    rw [movePathFS_cons, lookupFS_cons, lookupFS_cons]
    by_cases he : e.1 = src
    · rw [if_pos he, if_neg (fun h : e.1 = k => hk1 (he ▸ h ▸ rfl))]
      simp only [if_neg (fun h : dest = k => hk2 h.symm)]
      exact ih (fun x hx => hchild x (by simp [hx]))
    · rw [if_neg he, hu]
      simp only [Bool.false_eq_true, if_false]
      by_cases hek : e.1 = k
      · rw [if_pos hek, if_pos hek]
      · rw [if_neg hek, if_neg hek]
        exact ih (fun x hx => hchild x (by simp [hx]))

/-! Directory creation, most-recent-backup choice, overwrite policy. -/

theorem mkdirOne_dir (fs : FS) (now : DT) (q : String)
    (h : isDirAt fs q = true) : mkdirOne fs now q = (fs, none) := by
  unfold isDirAt at h
  unfold mkdirOne
  rcases hl : lookupFS fs q with _ | e
  · rw [hl] at h; simp at h
  · have hk : e.kind = EntryKind.dir := by rw [hl] at h; simpa using h
    simp [hk]

theorem mkdirChain_id_of_dirs (fs : FS) (now : DT) :
    ∀ qs, (∀ q ∈ qs, isDirAt fs q = true) → mkdirChain fs now qs = (fs, none) := by
  intro qs
  induction qs with
  | nil => intro _; rfl
  | cons q t ih =>
    intro h
    have h1 := mkdirOne_dir fs now q (h q (by simp))
    simp only [mkdirChain, h1]
    exact ih (fun x hx => h x (by simp [hx]))

theorem mkdirParents_id_of_dirs (fs : FS) (now : DT) (p : String)
    (h : ∀ q ∈ pathPrefixes p, isDirAt fs q = true) :
    mkdirParents fs now p = (fs, none) :=
  mkdirChain_id_of_dirs fs now (pathPrefixes p) h

theorem lookupFS_mkdirOne_preserve (fs : FS) (now : DT) (q p : String) (e : Entry)
    (h : lookupFS fs p = some e) : lookupFS (mkdirOne fs now q).1 p = some e := by
  unfold mkdirOne
  rcases hl : lookupFS fs q with _ | x
  · simp only
    have hpq : p ≠ q := by
      intro hq; rw [hq, hl] at h; exact Option.noConfusion h
    rw [lookupFS_writeAssoc_ne fs q _ p hpq]
    exact h
  · by_cases hk : x.kind = .dir <;> simp [hk, h]

theorem mkdirChain_preserve (fs : FS) (now : DT) :
    ∀ qs (p : String) (e : Entry), lookupFS fs p = some e →
      lookupFS (mkdirChain fs now qs).1 p = some e := by
  intro qs
  induction qs generalizing fs with
  | nil => intro p e h; exact h
  | cons q t ih =>
    intro p e h
    simp only [mkdirChain]
    rcases hr : (mkdirOne fs now q).2 with _ | err
    · simp only [hr]
      exact ih (mkdirOne fs now q).1 p e
        (by rw [← hr] at *; exact lookupFS_mkdirOne_preserve fs now q p e h)
    · simp only [hr]
      exact lookupFS_mkdirOne_preserve fs now q p e h

theorem mkdirChain_exists_all (fs : FS) (now : DT) :
    ∀ qs, (mkdirChain fs now qs).2 = none →
      ∀ q ∈ qs, existsFS (mkdirChain fs now qs).1 q = true := by
  intro qs
  induction qs generalizing fs with
  | nil => intro _ q hq; simp at hq
  | cons q0 t ih =>
    intro hok q hq
    simp only [mkdirChain] at hok ⊢
    rcases hr : (mkdirOne fs now q0).2 with _ | err
    · simp only [hr] at hok ⊢
      have hq0 : ∃ e, lookupFS (mkdirOne fs now q0).1 q0 = some e := by
        unfold mkdirOne
        rcases hl : lookupFS fs q0 with _ | x
        · simp only
          exact ⟨_, lookupFS_writeAssoc_self fs q0 _⟩
        · by_cases hk : x.kind = .dir
          · simp only [hk]
            exact ⟨x, by simp [hl]⟩
          · exfalso
            unfold mkdirOne at hr
            rw [hl] at hr
            simp only [if_neg hk] at hr
            exact Option.noConfusion hr
      rcases List.mem_cons.mp hq with hq1 | hq1
      · rcases hq0 with ⟨e, he⟩
        subst hq1
        have := mkdirChain_preserve (mkdirOne fs now q).1 now t q e he
        simp [existsFS, this]
      · exact ih (mkdirOne fs now q0).1 hok q hq1
    · simp only [hr] at hok
      exact Option.noConfusion hok

theorem lookupFS_mkdirOne_frame (fs : FS) (now : DT) (q p : String) (h : p ≠ q) :
    lookupFS (mkdirOne fs now q).1 p = lookupFS fs p := by
  unfold mkdirOne
  rcases hl : lookupFS fs q with _ | x
  · simp only
    exact lookupFS_writeAssoc_ne fs q _ p h
  · by_cases hk : x.kind = .dir <;> simp [hk]

theorem mkdirChain_frame (fs : FS) (now : DT) :
    ∀ qs (p : String), p ∉ qs →
      lookupFS (mkdirChain fs now qs).1 p = lookupFS fs p := by
  intro qs
  induction qs generalizing fs with
  | nil => intro p _; rfl
  | cons q t ih =>
    intro p hp
    have hpq : p ≠ q := fun h => hp (by simp [h])
    have hpt : p ∉ t := fun h => hp (by simp [h])
    simp only [mkdirChain]
    rcases hr : (mkdirOne fs now q).2 with _ | err
    · simp only [hr]
      rw [ih (mkdirOne fs now q).1 p hpt]
      exact lookupFS_mkdirOne_frame fs now q p hpq
    · simp only [hr]
      exact lookupFS_mkdirOne_frame fs now q p hpq

theorem pickLatest_stays (l : List (String × BackupInfo)) :
    ∀ e : String × BackupInfo, (∀ x ∈ l, x.1 < e.1) →
      l.foldl (fun acc x =>
        match acc with
        | none => some x
        | some a => if strLtD a.1 x.1 = true then some x else acc) (some e) = some e := by
  induction l with
  | nil => intro e _; rfl
  | cons x t ih =>
    intro e h
    have hx : x.1 < e.1 := h x (by simp)
    simp only [List.foldl]
    rw [if_neg (fun hc => lt_asymm hx ((strLtD_iff_lt _ _).mp hc))]
    exact ih e (fun y hy => h y (by simp [hy]))

theorem pickLatest_cons_max (e : String × BackupInfo) (l : List (String × BackupInfo))
    (h : ∀ x ∈ l, x.1 < e.1) : pickLatest (e :: l) = some e := by
  unfold pickLatest
  simp only [List.foldl]
  exact pickLatest_stays l e h

/-- The overwrite condition of the spec: strictly larger source, or equal
size and strictly newer source. -/
def OverwriteCond (se de : Entry) : Prop :=
  de.size < se.size ∨ (se.size = de.size ∧ de.mtime < se.mtime)

instance (se de : Entry) : Decidable (OverwriteCond se de) := by
  unfold OverwriteCond; infer_instance

theorem shouldOverwrite_iff (fs : FS) (srcP destP : String) (se de : Entry)
    (hs : lookupFS fs srcP = some se) (hd : lookupFS fs destP = some de) :
    (shouldOverwrite fs srcP destP = true) ↔ OverwriteCond se de := by
  unfold shouldOverwrite
  rw [hd, hs]
  simp only [Option.getD_some, OverwriteCond]
  split_ifs with h1 h2
  · simpa using Or.inl h1
  · rw [decide_eq_true_eq]
    constructor
    · intro h; exact Or.inr ⟨h2, h⟩
    · rintro (h | ⟨_, h⟩)
      · omega
      · exact h
  · simp only [Bool.false_eq_true, false_iff]
    rintro (h | ⟨h, _⟩) <;> omega

/-! Path reconstruction: a candidate disambiguated name never collides
with the original destination path. -/

theorem intercalate_cons_ne_nil {α : Type} (sep x : List α) :
    ∀ l : List (List α), l ≠ [] →
      List.intercalate sep (x :: l) = x ++ sep ++ List.intercalate sep l := by
  intro l hl
  cases l with
  | nil => exact absurd rfl hl
  | cons y t =>
    simp only [List.intercalate, List.intersperse, List.flatten]
    simp [List.append_assoc]

theorem intercalate_append_last {α : Type} (sep : List α) :
    ∀ (l : List (List α)) (a : List α), l ≠ [] →
      List.intercalate sep (l ++ [a]) = List.intercalate sep l ++ sep ++ a := by
  intro l
  induction l with
  | nil => intro a h; exact absurd rfl h
  | cons x t ih =>
    intro a _
    cases ht : t with
    | nil =>
      subst ht
      simp only [List.nil_append, List.cons_append]
      simp [List.intercalate, List.intersperse, List.flatten]
    | cons y t2 =>
      rw [← ht]
      have htne : t ≠ [] := by rw [ht]; exact List.cons_ne_nil y t2
      have h1 : List.intercalate sep ((x :: t) ++ [a]) =
          x ++ sep ++ List.intercalate sep (t ++ [a]) := by
        rw [List.cons_append]
        exact intercalate_cons_ne_nil sep x (t ++ [a]) (by simp)
      rw [h1, ih a htne, intercalate_cons_ne_nil sep x t htne]
      simp [List.append_assoc]

theorem renderPath_splitPath (p : String) : renderPath (splitPath p) = p := by
  unfold renderPath splitPath
  apply strExt
  simp only [List.map_map]
  have hcomp : String.data ∘ String.mk = id := by
    funext l; rfl
  rw [hcomp, List.map_id]
  exact List.intercalate_splitOn p.data '/'

theorem splitPath_ne_nil (p : String) : splitPath p ≠ [] := by
  unfold splitPath
  intro h
  rw [List.map_eq_nil_iff] at h
  exact List.splitOnP_ne_nil _ p.data (by simpa [List.splitOn] using h)

theorem renderPath_append_last (cs : List String) (c : String) (h : cs ≠ []) :
    renderPath (cs ++ [c]) = renderPath cs ++ "/" ++ c := by
  unfold renderPath
  apply strExt
  simp only [String.data_append, List.map_append, List.map]
  rw [intercalate_append_last ['/'] (cs.map String.data) c.data
    (by simpa using h)]

theorem parent_base_recomb (p : String) (h : 2 ≤ (splitPath p).length) :
    parentPath p ++ "/" ++ baseName p = p := by
  have hne : splitPath p ≠ [] := splitPath_ne_nil p
  have hdrop : (splitPath p).dropLast ≠ [] := by
    intro hd
    have := congrArg List.length hd
    simp [List.length_dropLast] at this
    omega
  have hsplit : (splitPath p).dropLast ++ [(splitPath p).getLast hne] = splitPath p :=
    List.dropLast_append_getLast hne
  have hbase : baseName p = (splitPath p).getLast hne := by
    unfold baseName
    rw [List.getLastD_eq_getLast?, List.getLast?_eq_getLast _ hne]
    rfl
  unfold parentPath
  rw [hbase, ← renderPath_append_last _ _ hdrop, hsplit, renderPath_splitPath]

theorem decDigitsAux_ne_nil_of_le (fuel n : Nat) (hn : n ≠ 0) (hle : n ≤ fuel) :
    decDigitsAux fuel n ≠ [] := by
  intro h
  have := digitsVal_decDigitsAux fuel n hle
  rw [h] at this
  exact hn (by simpa [digitsVal] using this.symm)

theorem toDec_data_ne_nil (n : Nat) : (toDec n).data ≠ [] := by
  unfold toDec
  by_cases h : n = 0
  · rw [if_pos h]
    intro hc
    exact List.noConfusion hc
  · rw [if_neg h]
    intro hc
    have hrev : (decDigitsAux n n).reverse = [] := by
      have := List.map_eq_nil_iff.mp hc
      exact this
    have : decDigitsAux n n = [] := by
      simpa using congrArg List.reverse hrev
    exact decDigitsAux_ne_nil n h this

theorem toDec_length_ge_two (n : Nat) (h : 10 ≤ n) : 2 ≤ (toDec n).data.length := by
  unfold toDec
  rw [if_neg (by omega : ¬ n = 0)]
  show 2 ≤ ((decDigitsAux n n).reverse.map Nat.digitChar).length
  rw [List.length_map, List.length_reverse]
  obtain ⟨fuel, rfl⟩ : ∃ m, n = m + 1 := ⟨n - 1, by omega⟩
  rw [show decDigitsAux (fuel + 1) (fuel + 1) =
      (fuel + 1) % 10 :: decDigitsAux fuel ((fuel + 1) / 10) from by
    simp [decDigitsAux]]
  simp only [List.length_cons]
  have hne := decDigitsAux_ne_nil_of_le fuel ((fuel + 1) / 10)
    (by omega) (by omega)
  have := List.length_pos.mpr hne
  omega

theorem padTwo_data_length (c : Nat) : 2 ≤ (padTwo c).data.length := by
  unfold padTwo
  by_cases h : c < 10
  · rw [if_pos h, String.data_append]
    rw [List.length_append]
    have h1 := List.length_pos.mpr (toDec_data_ne_nil c)
    have h0 : ("0" : String).data.length = 1 := rfl
    omega
  · rw [if_neg h]
    exact toDec_length_ge_two c (by omega)

theorem splitStemExt_recomb (name : String) :
    (splitStemExt name).1 ++ (splitStemExt name).2 = name := by
  unfold splitStemExt
  dsimp only
  split_ifs with h1 h2
  · apply strExt
    rw [String.data_append]
    show List.intercalate ['.'] (name.data.splitOn '.').dropLast ++
      ('.' :: (name.data.splitOn '.').getLastD []) = name.data
    have hne : name.data.splitOn '.' ≠ [] := by
      simpa [List.splitOn] using List.splitOnP_ne_nil _ name.data
    have hdrop : (name.data.splitOn '.').dropLast ≠ [] := by
      intro hd
      have hlen2 := congrArg List.length hd
      simp only [List.length_dropLast, List.length_nil] at hlen2
      omega
    have hlastd : (name.data.splitOn '.').getLastD [] =
        (name.data.splitOn '.').getLast hne := by
      rw [List.getLastD_eq_getLast?, List.getLast?_eq_getLast _ hne]
      rfl
    have hsplit := List.dropLast_append_getLast hne
    have hround := List.intercalate_splitOn name.data '.'
    conv_rhs => rw [← hround]
    rw [show ([('.' : Char)].intercalate (name.data.splitOn '.')) =
      List.intercalate ['.'] (name.data.splitOn '.') from rfl]
    conv_rhs => rw [← hsplit]
    rw [intercalate_append_last ['.'] _ _ hdrop, hlastd]
    simp [List.append_assoc]
  · apply strExt
    simp [String.data_append]
  · apply strExt
    simp [String.data_append]

theorem candidateName_data_length (destP : String) (c : Nat) :
    (candidateName destP c).data.length =
      (parentPath destP).data.length + 1 +
      ((splitStemExt (baseName destP)).1.data.length + 1 +
        (padTwo c).data.length + (splitStemExt (baseName destP)).2.data.length) := by
  unfold candidateName
  simp only [String.data_append, List.length_append]
  have h1 : (['/'] : List Char).length = 1 := rfl
  have h2 : (['.'] : List Char).length = 1 := rfl
  omega

theorem candidateName_ne_dest (destP : String) (c : Nat)
    (h2 : 2 ≤ (splitPath destP).length) : candidateName destP c ≠ destP := by
  intro h
  have hrecomb := parent_base_recomb destP h2
  have hname := splitStemExt_recomb (baseName destP)
  have hdlen : destP.data.length =
      (parentPath destP).data.length + 1 + (baseName destP).data.length := by
    have := congrArg (fun s : String => s.data.length) hrecomb
    simp only [String.data_append, List.length_append] at this
    have h1 : (['/'] : List Char).length = 1 := rfl
    omega
  have hblen : (baseName destP).data.length =
      (splitStemExt (baseName destP)).1.data.length +
      (splitStemExt (baseName destP)).2.data.length := by
    have := congrArg (fun s : String => s.data.length) hname
    simp only [String.data_append, List.length_append] at this
    omega
  have hclen := candidateName_data_length destP c
  have hpad := padTwo_data_length c
  have heq := congrArg (fun s : String => s.data.length) h
  simp only at heq
  omega

/-! Ordering of plan execution (claim C3). -/

instance : IsTotal OrganizationSuggestion suggLE := ⟨by
  intro a b
  unfold suggLE
  rcases Nat.lt_trichotomy (sortKey a) (sortKey b) with h | h | h
  · exact Or.inl (Or.inl h)
  · rcases le_total a.destination_path b.destination_path with hd | hd
    · exact Or.inl (Or.inr ⟨h, hd⟩)
    · exact Or.inr (Or.inr ⟨h.symm, hd⟩)
  · exact Or.inr (Or.inl h)⟩

instance : IsTrans OrganizationSuggestion suggLE := ⟨by
  intro a b c hab hbc
  unfold suggLE at *
  rcases hab with h1 | ⟨h1e, h1d⟩ <;> rcases hbc with h2 | ⟨h2e, h2d⟩
  · exact Or.inl (by omega)
  · exact Or.inl (by omega)
  · exact Or.inl (by omega)
  · exact Or.inr ⟨by omega, le_trans h1d h2d⟩⟩

/-- C3: for every plan, execute_plan processes all create_directory
operations before any move operation, and within each of the two groups
processes operations in nondecreasing lexicographic order of destination
path, regardless of the order of suggestions in the plan: the processed
sequence is a permutation of the plan in which no move precedes a
create_directory, and each group, read off in processing order, is
sorted by destination path. -/
theorem executePlan_ordering (plan : OrganizationPlan) :
    (executionOrder plan.suggestions).Perm plan.suggestions ∧
    (executionOrder plan.suggestions).Pairwise
      (fun a b => a.operation = "move" → b.operation ≠ "create_directory") ∧
    ((executionOrder plan.suggestions).filter
      (fun s => s.operation = "create_directory")).Pairwise
      (fun a b => a.destination_path ≤ b.destination_path) ∧
    ((executionOrder plan.suggestions).filter
      (fun s => s.operation = "move")).Pairwise
      (fun a b => a.destination_path ≤ b.destination_path) := by
  have hsorted : (executionOrder plan.suggestions).Pairwise suggLE :=
    List.sorted_insertionSort suggLE plan.suggestions
  refine ⟨List.perm_insertionSort suggLE plan.suggestions, ?_, ?_, ?_⟩
  · apply hsorted.imp
    intro a b hle hma hbc
    have ha : sortKey a = 1 := by
      unfold sortKey
      rw [if_neg (by rw [hma]; decide)]
    have hb : sortKey b = 0 := by
      unfold sortKey
      rw [if_pos hbc]
    unfold suggLE at hle
    rcases hle with h | ⟨h, _⟩ <;> omega
  · have hp := hsorted.filter (fun s => s.operation = "create_directory")
    apply hp.imp_of_mem
    intro a b ha hb hle
    have ha' : a.operation = "create_directory" := by
      simpa using List.of_mem_filter ha
    have hb' : b.operation = "create_directory" := by
      simpa using List.of_mem_filter hb
    have hka : sortKey a = 0 := by unfold sortKey; rw [if_pos ha']
    have hkb : sortKey b = 0 := by unfold sortKey; rw [if_pos hb']
    unfold suggLE at hle
    rcases hle with h | ⟨_, h⟩
    · omega
    · exact h
  · have hp := hsorted.filter (fun s => s.operation = "move")
    apply hp.imp_of_mem
    intro a b ha hb hle
    have ha' : a.operation = "move" := by
      simpa using List.of_mem_filter ha
    have hb' : b.operation = "move" := by
      simpa using List.of_mem_filter hb
    have hka : sortKey a = 1 := by
      unfold sortKey; rw [if_neg (by rw [ha']; decide)]
    have hkb : sortKey b = 1 := by
      unfold sortKey; rw [if_neg (by rw [hb']; decide)]
    unfold suggLE at hle
    rcases hle with h | ⟨_, h⟩
    · omega
    · exact h

/-! Report invariants (claim C10). -/

theorem execOps_length (cfg : FOConfig) :
    ∀ (l : List OrganizationSuggestion) (ts : List DT) (st : FOState),
      (execOps cfg st l ts).2.length = l.length := by
  intro l
  induction l with
  | nil => intro ts st; rfl
  | cons s ss ih =>
    intro ts st
    simp only [execOps, List.length_cons]
    rw [ih]

theorem bytes_sum_eq : ∀ rs : List OperationResult,
    (rs.map bytesContribution).sum =
      (rs.filterMap (fun r => if r.success then r.bytes_moved else none)).sum := by
  intro rs
  induction rs with
  | nil => rfl
  | cons r t ih =>
    simp only [List.map, List.filterMap, List.sum_cons]
    cases hs : r.success
    · simp only [Bool.false_eq_true, if_false]
      rw [show bytesContribution r = 0 by unfold bytesContribution; rw [hs]; simp]
      simpa using ih
    · simp only [if_pos rfl]
      cases hb : r.bytes_moved with
      | none =>
        rw [show bytesContribution r = 0 by
          unfold bytesContribution truthyBytes; rw [hs, hb]; simp]
        simpa using ih
      | some b =>
        by_cases hb0 : b = 0
        · rw [show bytesContribution r = 0 by
            unfold bytesContribution truthyBytes; rw [hs, hb, hb0]; simp]
          subst hb0
          simpa using ih
        · rw [show bytesContribution r = b by
            unfold bytesContribution truthyBytes
            rw [hs, hb]
            simp [hb0]]
          simpa using ih

/-- C10: for every plan, the report returned by execute_plan counts one
operation per suggestion: total_operations is the plan size, there is
exactly one result per suggestion, successes and failures partition the
total, and total_bytes_moved is the sum of the non-null bytes_moved
values of the successful results. -/
theorem executePlan_report_invariants (cfg : FOConfig) (st : FOState)
    (plan : OrganizationPlan) (planName : String) (t0 t1 : DT) (times : List DT) :
    (executePlan cfg st plan planName t0 t1 times).2.total_operations =
      plan.suggestions.length ∧
    (executePlan cfg st plan planName t0 t1 times).2.results.length =
      plan.suggestions.length ∧
    (executePlan cfg st plan planName t0 t1 times).2.successful_operations +
      (executePlan cfg st plan planName t0 t1 times).2.failed_operations =
      (executePlan cfg st plan planName t0 t1 times).2.total_operations ∧
    (executePlan cfg st plan planName t0 t1 times).2.total_bytes_moved =
      ((executePlan cfg st plan planName t0 t1 times).2.results.filterMap
        (fun r => if r.success then r.bytes_moved else none)).sum := by
  have hlen : (execOps cfg st (executionOrder plan.suggestions) times).2.length =
      plan.suggestions.length := by
    rw [execOps_length]
    exact (List.perm_insertionSort suggLE plan.suggestions).length_eq
  refine ⟨rfl, ?_, ?_, ?_⟩
  · simpa [executePlan] using hlen
  · show (execOps cfg st (executionOrder plan.suggestions) times).2.countP
        (fun r => r.success) +
      (execOps cfg st (executionOrder plan.suggestions) times).2.countP
        (fun r => ¬ r.success) = plan.suggestions.length
    rw [← hlen]
    exact (List.length_eq_countP_add_countP _ _).symm
  · exact bytes_sum_eq _

/-! Validation as a partition (claims C4 and C5). -/

theorem validateAux_partition (plan : OrganizationPlan) (base : String) (fs : FS) :
    ∀ l : List OrganizationSuggestion,
      (validateAux plan base fs l).1.length + (validateAux plan base fs l).2.length =
        (l.filter (fun s => s.operation = "create_directory" ∨
          s.operation = "move")).length ∧
      (validateAux plan base fs l).1.Sublist l := by
  intro l
  induction l with
  | nil => exact ⟨rfl, List.Sublist.refl []⟩
  | cons s rest ih =>
    rcases ih with ⟨ihlen, ihsub⟩
    by_cases hc : s.operation = "create_directory"
    · have hfilter : (s :: rest).filter (fun s => s.operation = "create_directory" ∨
          s.operation = "move") = s :: rest.filter (fun s =>
            s.operation = "create_directory" ∨ s.operation = "move") := by
        rw [List.filter_cons_of_pos (by simp [hc])]
      by_cases he : existsFS fs (joinRel base s.destination_path) = true
      · constructor
        · simp only [validateAux, if_pos hc, if_pos he, hfilter, List.length_cons]
          omega
        · simp only [validateAux, if_pos hc, if_pos he]
          exact ihsub.cons s
      · have he' : existsFS fs (joinRel base s.destination_path) = false := by
          cases h : existsFS fs (joinRel base s.destination_path)
          · rfl
          · exact absurd h he
        constructor
        · simp only [validateAux, if_pos hc, he', Bool.false_eq_true, if_false,
            hfilter, List.length_cons]
          omega
        · simp only [validateAux, if_pos hc, he', Bool.false_eq_true, if_false]
          exact ihsub.cons₂ s
    · by_cases hm : s.operation = "move"
      · have hfilter : (s :: rest).filter (fun s => s.operation = "create_directory" ∨
            s.operation = "move") = s :: rest.filter (fun s =>
              s.operation = "create_directory" ∨ s.operation = "move") := by
          rw [List.filter_cons_of_pos (by simp [hm])]
        by_cases hsrc : existsFS fs (joinRel base s.source_path) = true
        · by_cases hrej : (¬ existsFS fs (parentPath (joinRel base s.destination_path)) ∧
              ¬ parentWillBeCreated plan base (parentPath (joinRel base s.destination_path)))
          · constructor
            · simp only [validateAux, if_neg hc, if_pos hm, hfilter, List.length_cons]
              rw [if_neg (by simpa using hsrc), if_pos hrej]
              simp only [List.length_cons]
              omega
            · simp only [validateAux, if_neg hc, if_pos hm]
              rw [if_neg (by simpa using hsrc), if_pos hrej]
              exact ihsub.cons s
          · constructor
            · simp only [validateAux, if_neg hc, if_pos hm, hfilter, List.length_cons]
              rw [if_neg (by simpa using hsrc), if_neg hrej]
              simp only [List.length_cons]
              omega
            · simp only [validateAux, if_neg hc, if_pos hm]
              rw [if_neg (by simpa using hsrc), if_neg hrej]
              exact ihsub.cons₂ s
        · constructor
          · simp only [validateAux, if_neg hc, if_pos hm, hfilter, List.length_cons]
            rw [if_pos (by simpa using hsrc)]
            simp only [List.length_cons]
            omega
          · simp only [validateAux, if_neg hc, if_pos hm]
            rw [if_pos (by simpa using hsrc)]
            exact ihsub.cons s
      · have hfilter : (s :: rest).filter (fun s => s.operation = "create_directory" ∨
            s.operation = "move") = rest.filter (fun s =>
              s.operation = "create_directory" ∨ s.operation = "move") := by
          rw [List.filter_cons_of_neg (by simp [hc, hm])]
        constructor
        · simp only [validateAux, if_neg hc, if_neg hm, hfilter]
          omega
        · simp only [validateAux, if_neg hc, if_neg hm]
          exact ihsub.cons s

/-- C4 as stated is false: a plan consisting of one rename suggestion is
validated into an empty valid list and an empty error list, so that
suggestion lands in neither output and the outputs do not add up to the
plan size. -/
theorem validateSuggestions_drops_unknown :
    (validateSuggestions ⟨"X", none, [⟨"a", "c", "rename", 1, "r"⟩], "", []⟩
        "base" []).1.length +
      (validateSuggestions ⟨"X", none, [⟨"a", "c", "rename", 1, "r"⟩], "", []⟩
        "base" []).2.length ≠
      (OrganizationPlan.mk "X" none [⟨"a", "c", "rename", 1, "r"⟩] "" []).suggestions.length := by
  decide

/-- C4 amended: validate_suggestions partitions the create_directory and
move suggestions of the plan — each such suggestion is either accepted
into the valid list or rejected with one reason string, and the valid
list is a sublist of the plan; suggestions of any other operation kind
are silently dropped from both outputs. -/
theorem validateSuggestions_partition (plan : OrganizationPlan) (base : String)
    (fs : FS) :
    (validateSuggestions plan base fs).1.length +
        (validateSuggestions plan base fs).2.length =
      (plan.suggestions.filter (fun s => s.operation = "create_directory" ∨
        s.operation = "move")).length ∧
    (validateSuggestions plan base fs).1.Sublist plan.suggestions :=
  validateAux_partition plan base fs plan.suggestions

theorem parentWillBeCreated_iff (plan : OrganizationPlan) (base dp : String) :
    parentWillBeCreated plan base dp = true ↔
      ∃ c ∈ plan.suggestions, c.operation = "create_directory" ∧
        strStartsWith dp (joinRel base c.destination_path) = true := by
  unfold parentWillBeCreated
  rw [List.any_eq_true]
  constructor
  · rintro ⟨c, hc, hp⟩
    have := List.mem_filter.mp hc
    exact ⟨c, this.1, by simpa using this.2, hp⟩
  · rintro ⟨c, hc, hop, hp⟩
    exact ⟨c, List.mem_filter.mpr ⟨hc, by simpa using hop⟩, hp⟩

/-- C5: for a move suggestion, validation rejects it with the
source-not-found message when its source does not exist; when the source
exists but the destination parent does not, it is accepted exactly when
the plan contains a create_directory suggestion whose resolved
destination is a string prefix of the resolved destination parent, and
otherwise rejected with the destination-missing message. -/
theorem validateSuggestions_move_cases (plan : OrganizationPlan) (base : String)
    (fs : FS) (s : OrganizationSuggestion) (rest : List OrganizationSuggestion)
    (hop : s.operation = "move") :
    (existsFS fs (joinRel base s.source_path) = false →
      validateAux plan base fs (s :: rest) =
        ((validateAux plan base fs rest).1,
          ("Source file not found: " ++ s.source_path) ::
            (validateAux plan base fs rest).2)) ∧
    (existsFS fs (joinRel base s.source_path) = true →
      existsFS fs (parentPath (joinRel base s.destination_path)) = false →
      ((∃ c ∈ plan.suggestions, c.operation = "create_directory" ∧
          strStartsWith (parentPath (joinRel base s.destination_path))
            (joinRel base c.destination_path) = true) →
        validateAux plan base fs (s :: rest) =
          (s :: (validateAux plan base fs rest).1,
            (validateAux plan base fs rest).2)) ∧
      (¬ (∃ c ∈ plan.suggestions, c.operation = "create_directory" ∧
          strStartsWith (parentPath (joinRel base s.destination_path))
            (joinRel base c.destination_path) = true) →
        validateAux plan base fs (s :: rest) =
          ((validateAux plan base fs rest).1,
            ("Destination directory doesn't exist: " ++
              parentPath (joinRel base s.destination_path)) ::
              (validateAux plan base fs rest).2))) := by
  have hc : ¬ s.operation = "create_directory" := by rw [hop]; decide
  constructor
  · intro hsrc
    simp only [validateAux, if_neg hc, if_pos hop]
    rw [if_pos (by simpa using hsrc)]
  · intro hsrc hpar
    constructor
    · intro hex
      have hwill : parentWillBeCreated plan base
          (parentPath (joinRel base s.destination_path)) = true :=
        (parentWillBeCreated_iff plan base _).mpr hex
      simp only [validateAux, if_neg hc, if_pos hop]
      rw [if_neg (by simpa using hsrc),
        if_neg (by rw [hwill]; simp)]
    · intro hex
      have hwill : parentWillBeCreated plan base
          (parentPath (joinRel base s.destination_path)) = false := by
        cases hw : parentWillBeCreated plan base
            (parentPath (joinRel base s.destination_path))
        · rfl
        · exact absurd ((parentWillBeCreated_iff plan base _).mp hw) hex
      simp only [validateAux, if_neg hc, if_pos hop]
      rw [if_neg (by simpa using hsrc),
        if_pos (by rw [hpar, hwill]; simp)]

/-- Witness for C5 at a concrete input: a move whose source exists and
whose destination parent is missing is accepted because the plan creates
an ancestor of that parent earlier in the same plan. -/
theorem validateSuggestions_move_cases_witness :
    (⟨"src.mkv", "Show/Season 01/src.mkv", "move", 1, "r"⟩ :
        OrganizationSuggestion).operation = "move" ∧
    (existsFS [("b", ⟨.dir, 0, 0⟩), ("b/src.mkv", ⟨.file, 5, 0⟩)]
        (joinRel "b" "src.mkv") = true →
      existsFS [("b", ⟨.dir, 0, 0⟩), ("b/src.mkv", ⟨.file, 5, 0⟩)]
        (parentPath (joinRel "b" "Show/Season 01/src.mkv")) = false →
      ((∃ c ∈ (OrganizationPlan.mk "X" none
          [⟨"", "Show", "create_directory", 1, "r"⟩,
           ⟨"src.mkv", "Show/Season 01/src.mkv", "move", 1, "r"⟩] "" []).suggestions,
          c.operation = "create_directory" ∧
          strStartsWith (parentPath (joinRel "b" "Show/Season 01/src.mkv"))
            (joinRel "b" c.destination_path) = true) →
        validateAux (OrganizationPlan.mk "X" none
          [⟨"", "Show", "create_directory", 1, "r"⟩,
           ⟨"src.mkv", "Show/Season 01/src.mkv", "move", 1, "r"⟩] "" [])
          "b" [("b", ⟨.dir, 0, 0⟩), ("b/src.mkv", ⟨.file, 5, 0⟩)]
          (⟨"src.mkv", "Show/Season 01/src.mkv", "move", 1, "r"⟩ :: []) =
          (⟨"src.mkv", "Show/Season 01/src.mkv", "move", 1, "r"⟩ ::
            (validateAux (OrganizationPlan.mk "X" none
              [⟨"", "Show", "create_directory", 1, "r"⟩,
               ⟨"src.mkv", "Show/Season 01/src.mkv", "move", 1, "r"⟩] "" [])
              "b" [("b", ⟨.dir, 0, 0⟩), ("b/src.mkv", ⟨.file, 5, 0⟩)] []).1,
            (validateAux (OrganizationPlan.mk "X" none
              [⟨"", "Show", "create_directory", 1, "r"⟩,
               ⟨"src.mkv", "Show/Season 01/src.mkv", "move", 1, "r"⟩] "" [])
              "b" [("b", ⟨.dir, 0, 0⟩), ("b/src.mkv", ⟨.file, 5, 0⟩)] []).2)) ∧
      True) := by
  refine ⟨by decide, ?_⟩
  intro hsrc hpar
  refine ⟨?_, trivial⟩
  exact ((validateSuggestions_move_cases (OrganizationPlan.mk "X" none
    [⟨"", "Show", "create_directory", 1, "r"⟩,
     ⟨"src.mkv", "Show/Season 01/src.mkv", "move", 1, "r"⟩] "" [])
    "b" [("b", ⟨.dir, 0, 0⟩), ("b/src.mkv", ⟨.file, 5, 0⟩)]
    ⟨"src.mkv", "Show/Season 01/src.mkv", "move", 1, "r"⟩ []
    (by decide)).2 hsrc hpar).1

/-! Idempotent directory creation (claim C7). -/

theorem self_mem_pathPrefixes (p : String) : p ∈ pathPrefixes p := by
  unfold pathPrefixes
  apply List.mem_map.mpr
  refine ⟨splitPath p, ?_, renderPath_splitPath p⟩
  rcases hsp : splitPath p with _ | ⟨a, t⟩
  · exact absurd hsp (splitPath_ne_nil p)
  · rw [List.inits_cons]
    show a :: t ∈ List.drop 1 ([] :: t.inits.map fun t' => a :: t')
    rw [List.drop_one, List.tail_cons]
    exact List.mem_map.mpr ⟨t, (List.mem_inits t t).mpr (List.prefix_refl t), rfl⟩

/-- C7: in real mode, create_directory for an existing destination is
idempotent: it succeeds and the whole state is unchanged. For a missing
destination it creates the directory with all missing intermediate
directories (afterwards every ancestor of the destination, and the
destination itself, exists, and no other path changed), and a creation
error is captured in a failed OperationResult instead of being raised. -/
theorem createDirectory_real_semantics (cfg : FOConfig) (st : FOState) (now : DT)
    (s : OrganizationSuggestion) (hreal : cfg.dry_run = false) :
    (existsFS st.fs (joinRel cfg.base_path s.destination_path) = true →
      createDirectory cfg st now s =
        (st, ⟨true, "create_directory", "",
          joinRel cfg.base_path s.destination_path, none, none⟩)) ∧
    (existsFS st.fs (joinRel cfg.base_path s.destination_path) = false →
      (mkdirParents st.fs now (joinRel cfg.base_path s.destination_path)).2 = none →
      ((createDirectory cfg st now s).2.success = true ∧
       (createDirectory cfg st now s).1.fs =
         (mkdirParents st.fs now (joinRel cfg.base_path s.destination_path)).1 ∧
       existsFS (createDirectory cfg st now s).1.fs
         (joinRel cfg.base_path s.destination_path) = true ∧
       (∀ q ∈ pathPrefixes (joinRel cfg.base_path s.destination_path),
         existsFS (createDirectory cfg st now s).1.fs q = true) ∧
       (∀ p, p ∉ pathPrefixes (joinRel cfg.base_path s.destination_path) →
         lookupFS (createDirectory cfg st now s).1.fs p = lookupFS st.fs p) ∧
       (createDirectory cfg st now s).1.backups = st.backups ∧
       (createDirectory cfg st now s).1.reports = st.reports)) ∧
    (existsFS st.fs (joinRel cfg.base_path s.destination_path) = false →
      ∀ err,
        (mkdirParents st.fs now (joinRel cfg.base_path s.destination_path)).2 =
          some err →
        ((createDirectory cfg st now s).2.success = false ∧
         (createDirectory cfg st now s).2.error_message = some err ∧
         (createDirectory cfg st now s).1.backups = st.backups ∧
         (createDirectory cfg st now s).1.reports = st.reports)) := by
  refine ⟨?_, ?_, ?_⟩
  · intro hex
    unfold createDirectory
    rw [if_neg (by rw [hreal]; exact Bool.false_ne_true), if_pos hex]
  · intro hex hok
    have hcd : createDirectory cfg st now s =
        ({ st with fs := (mkdirParents st.fs now
            (joinRel cfg.base_path s.destination_path)).1 },
          ⟨true, "create_directory", "",
            joinRel cfg.base_path s.destination_path, none, none⟩) := by
      unfold createDirectory
      rw [if_neg (by rw [hreal]; exact Bool.false_ne_true),
        if_neg (by rw [hex]; exact Bool.false_ne_true)]
      have : (mkdirParents st.fs now (joinRel cfg.base_path s.destination_path)) =
          ((mkdirParents st.fs now (joinRel cfg.base_path s.destination_path)).1,
            none) := by
        rcases hmk : mkdirParents st.fs now (joinRel cfg.base_path s.destination_path)
          with ⟨f, e⟩
        rw [hmk] at hok
        simp only at hok
        rw [hok]
      rw [this]
    rw [hcd]
    have hall := mkdirChain_exists_all st.fs now
      (pathPrefixes (joinRel cfg.base_path s.destination_path)) hok
    refine ⟨rfl, rfl, ?_, ?_, ?_, rfl, rfl⟩
    · exact hall _ (self_mem_pathPrefixes _)
    · intro q hq
      exact hall q hq
    · intro p hp
      exact mkdirChain_frame st.fs now _ p hp
  · intro hex err herr
    unfold createDirectory
    rw [if_neg (by rw [hreal]; exact Bool.false_ne_true),
      if_neg (by rw [hex]; exact Bool.false_ne_true)]
    have : (mkdirParents st.fs now (joinRel cfg.base_path s.destination_path)) =
        ((mkdirParents st.fs now (joinRel cfg.base_path s.destination_path)).1,
          some err) := by
      rcases hmk : mkdirParents st.fs now (joinRel cfg.base_path s.destination_path)
        with ⟨f, e⟩
      rw [hmk] at herr
      simp only at herr
      rw [herr]
    rw [this]
    exact ⟨rfl, rfl, rfl, rfl⟩

/-- Witness for C7: creating b/d/e under an existing base directory b in
real mode succeeds, and re-running create_directory on the existing base
directory changes nothing. -/
theorem createDirectory_real_semantics_witness :
    (⟨"b", false, true⟩ : FOConfig).dry_run = false ∧
    existsFS [("b", ⟨.dir, 0, 0⟩)] (joinRel "b" "d/e") = false ∧
    (mkdirParents [("b", ⟨.dir, 0, 0⟩)] ⟨9, 0⟩ (joinRel "b" "d/e")).2 = none ∧
    (createDirectory ⟨"b", false, true⟩ ⟨[("b", ⟨.dir, 0, 0⟩)], [], []⟩ ⟨9, 0⟩
      ⟨"", "d/e", "create_directory", 1, "r"⟩).2.success = true := by
  refine ⟨by decide, by decide, by decide, ?_⟩
  exact ((createDirectory_real_semantics ⟨"b", false, true⟩
    ⟨[("b", ⟨.dir, 0, 0⟩)], [], []⟩ ⟨9, 0⟩
    ⟨"", "d/e", "create_directory", 1, "r"⟩ (by decide)).2.1
    (by decide) (by decide)).1

/-! Depth-bounded tree scanning (claim C9). -/

/-- C9: the scanner counts the root as depth zero and prunes, with no
placeholder, every node whose depth exceeds max_depth — a node processed
with exhausted gas (the gas of a node at depth d in a scan bounded by m
is m + 1 - d, which is zero exactly when d exceeds m) yields no node —
and scanning root/a/b/c.mkv with max_depth 1 yields the directory node a
with an empty children list. -/
theorem buildTreeNode_depth_bound :
    (∀ (includeHidden : Bool) (pfx : String) (t : RawTree),
      buildTreeNode includeHidden 0 pfx t = none) ∧
    generateTree "root"
      (.dir "root" true [.dir "a" true [.dir "b" true [.file "c.mkv" 100]]])
      1 false = some
      ⟨"root", "root", "directory", none,
        some [⟨"a", "root/a", "directory", none, some [], none⟩], none⟩ := by
  exact ⟨fun _ _ _ => rfl, rfl⟩

/-! Dry-run frame property (claim C6). -/

theorem createDirectory_dry (cfg : FOConfig) (st : FOState) (now : DT)
    (s : OrganizationSuggestion) (hdry : cfg.dry_run = true) :
    createDirectory cfg st now s =
      (st, ⟨true, "create_directory", "",
        joinRel cfg.base_path s.destination_path, none, none⟩) := by
  unfold createDirectory
  dsimp only
  rw [if_pos hdry]

theorem moveFile_dry (cfg : FOConfig) (st : FOState) (now : DT)
    (s : OrganizationSuggestion) (hdry : cfg.dry_run = true) :
    moveFile cfg st now s =
      (st,
        if existsFS st.fs (joinRel cfg.base_path s.source_path) = true then
          ⟨true, "move", joinRel cfg.base_path s.source_path,
            joinRel cfg.base_path s.destination_path, none,
            some (fileSizeFS st.fs (joinRel cfg.base_path s.source_path))⟩
        else
          ⟨false, "move", joinRel cfg.base_path s.source_path,
            joinRel cfg.base_path s.destination_path,
            some ("Source file not found: " ++
              joinRel cfg.base_path s.source_path), none⟩) := by
  unfold moveFile
  dsimp only
  by_cases hsrc : existsFS st.fs (joinRel cfg.base_path s.source_path) = true
  · rw [if_neg (by simpa using hsrc), if_pos hdry, if_pos hsrc]
  · rw [if_pos (by simpa using hsrc), if_neg hsrc]

theorem execOne_dry_eq (cfg : FOConfig) (st : FOState) (now : DT)
    (s : OrganizationSuggestion) (hdry : cfg.dry_run = true) :
    execOne cfg st now s =
      (st,
        if s.operation = "create_directory" then
          ⟨true, "create_directory", "",
            joinRel cfg.base_path s.destination_path, none, none⟩
        else if s.operation = "move" then
          (if existsFS st.fs (joinRel cfg.base_path s.source_path) = true then
            ⟨true, "move", joinRel cfg.base_path s.source_path,
              joinRel cfg.base_path s.destination_path, none,
              some (fileSizeFS st.fs (joinRel cfg.base_path s.source_path))⟩
          else
            ⟨false, "move", joinRel cfg.base_path s.source_path,
              joinRel cfg.base_path s.destination_path,
              some ("Source file not found: " ++
                joinRel cfg.base_path s.source_path), none⟩)
        else
          ⟨false, s.operation, s.source_path, s.destination_path,
            some ("Unknown operation: " ++ s.operation), none⟩) := by
  by_cases hc : s.operation = "create_directory"
  · simp only [execOne, if_pos hc]
    exact createDirectory_dry cfg st now s hdry
  · by_cases hm : s.operation = "move"
    · simp only [execOne, if_neg hc, if_pos hm]
      exact moveFile_dry cfg st now s hdry
    · simp only [execOne, if_neg hc, if_neg hm]

theorem execOps_dry_state (cfg : FOConfig) (hdry : cfg.dry_run = true) :
    ∀ (l : List OrganizationSuggestion) (ts : List DT) (st : FOState),
      (execOps cfg st l ts).1 = st := by
  intro l
  induction l with
  | nil => intro ts st; rfl
  | cons s ss ih =>
    intro ts st
    simp only [execOps]
    rw [execOne_dry_eq cfg st (ts.headD ⟨0, 0⟩) s hdry]
    exact ih ts.tail st

theorem execOps_dry_results (cfg : FOConfig) (hdry : cfg.dry_run = true) :
    ∀ (l : List OrganizationSuggestion) (ts : List DT) (st : FOState)
      (r : OperationResult), r ∈ (execOps cfg st l ts).2 →
      (r.operation = "create_directory" →
        r.success = true ∧ r.error_message = none) ∧
      (r.operation = "move" →
        (r.success = true ↔ existsFS st.fs r.source_path = true) ∧
        (r.success = true →
          r.bytes_moved = some (fileSizeFS st.fs r.source_path))) := by
  intro l
  induction l with
  | nil => intro ts st r hr; simp [execOps] at hr
  | cons s ss ih =>
    intro ts st r hr
    simp only [execOps] at hr
    rw [execOne_dry_eq cfg st (ts.headD ⟨0, 0⟩) s hdry] at hr
    simp only [List.mem_cons] at hr
    rcases hr with hr | hr
    · subst hr
      by_cases hc : s.operation = "create_directory"
      · rw [if_pos hc]
        exact ⟨fun _ => ⟨rfl, rfl⟩, fun hmv => by simp at hmv⟩
      · rw [if_neg hc]
        by_cases hm : s.operation = "move"
        · rw [if_pos hm]
          by_cases hsrc : existsFS st.fs (joinRel cfg.base_path s.source_path) = true
          · rw [if_pos hsrc]
            exact ⟨fun hcd => by simp at hcd,
              fun _ => ⟨by simpa using hsrc, fun _ => rfl⟩⟩
          · rw [if_neg hsrc]
            refine ⟨fun hcd => by simp at hcd,
              fun _ => ⟨?_, fun htrue => by simp at htrue⟩⟩
            constructor
            · intro h; simp at h
            · intro h; exact absurd h hsrc
        · rw [if_neg hm]
          exact ⟨fun hcd => absurd (hcd ▸ hc) (fun hcc => hcc rfl),
            fun hmv => absurd (hmv ▸ hm) (fun hmm => hmm rfl)⟩
    · exact ih ts.tail st r hr

/-- C6: in dry-run mode every create_directory and move operation
reports its intended effect without mutating the filesystem — a create
reports success, a move reports success with the pre-move source byte
size exactly when the source exists — the filesystem and the backup
store are unchanged, and the only write the run performs is the
unconditional persistence of the execution report. -/
theorem executePlan_dry_run_frame (cfg : FOConfig) (st : FOState)
    (plan : OrganizationPlan) (planName : String) (t0 t1 : DT) (times : List DT)
    (hdry : cfg.dry_run = true) :
    (executePlan cfg st plan planName t0 t1 times).1.fs = st.fs ∧
    (executePlan cfg st plan planName t0 t1 times).1.backups = st.backups ∧
    (executePlan cfg st plan planName t0 t1 times).1.reports =
      writeAssoc st.reports (reportFileName t0)
        (executePlan cfg st plan planName t0 t1 times).2 ∧
    (∀ r ∈ (executePlan cfg st plan planName t0 t1 times).2.results,
      (r.operation = "create_directory" →
        r.success = true ∧ r.error_message = none) ∧
      (r.operation = "move" →
        (r.success = true ↔ existsFS st.fs r.source_path = true) ∧
        (r.success = true →
          r.bytes_moved = some (fileSizeFS st.fs r.source_path)))) := by
  have hst := execOps_dry_state cfg hdry (executionOrder plan.suggestions) times st
  refine ⟨?_, ?_, ?_, ?_⟩
  · show (execOps cfg st (executionOrder plan.suggestions) times).1.fs = st.fs
    rw [hst]
  · show (execOps cfg st (executionOrder plan.suggestions) times).1.backups = st.backups
    rw [hst]
  · show writeAssoc (execOps cfg st (executionOrder plan.suggestions) times).1.reports
      (reportFileName t0) _ = _
    rw [hst]
    rfl
  · intro r hr
    exact execOps_dry_results cfg hdry (executionOrder plan.suggestions) times st r hr

/-- Witness for C6: a dry run over a one-move plan leaves the
filesystem and backups untouched and records exactly the report. -/
theorem executePlan_dry_run_frame_witness :
    (⟨"b", true, true⟩ : FOConfig).dry_run = true ∧
    (executePlan ⟨"b", true, true⟩
      ⟨[("b", ⟨.dir, 0, 0⟩), ("b/s.mkv", ⟨.file, 5, 0⟩)], [], []⟩
      ⟨"X", none, [⟨"s.mkv", "d/s.mkv", "move", 1, "r"⟩], "", []⟩
      "" ⟨7, 0⟩ ⟨8, 0⟩ [⟨7, 1⟩]).1.fs =
      [("b", ⟨.dir, 0, 0⟩), ("b/s.mkv", ⟨.file, 5, 0⟩)] ∧
    (executePlan ⟨"b", true, true⟩
      ⟨[("b", ⟨.dir, 0, 0⟩), ("b/s.mkv", ⟨.file, 5, 0⟩)], [], []⟩
      ⟨"X", none, [⟨"s.mkv", "d/s.mkv", "move", 1, "r"⟩], "", []⟩
      "" ⟨7, 0⟩ ⟨8, 0⟩ [⟨7, 1⟩]).1.backups = [] := by
  refine ⟨rfl, ?_, ?_⟩
  · exact (executePlan_dry_run_frame ⟨"b", true, true⟩
      ⟨[("b", ⟨.dir, 0, 0⟩), ("b/s.mkv", ⟨.file, 5, 0⟩)], [], []⟩
      ⟨"X", none, [⟨"s.mkv", "d/s.mkv", "move", 1, "r"⟩], "", []⟩
      "" ⟨7, 0⟩ ⟨8, 0⟩ [⟨7, 1⟩] rfl).1
  · exact (executePlan_dry_run_frame ⟨"b", true, true⟩
      ⟨[("b", ⟨.dir, 0, 0⟩), ("b/s.mkv", ⟨.file, 5, 0⟩)], [], []⟩
      ⟨"X", none, [⟨"s.mkv", "d/s.mkv", "move", 1, "r"⟩], "", []⟩
      "" ⟨7, 0⟩ ⟨8, 0⟩ [⟨7, 1⟩] rfl).2.1

/-! Real-mode move: one reduced equation per conflict branch. -/

theorem moveFile_real_overwrite (cfg : FOConfig) (st : FOState) (now : DT)
    (s : OrganizationSuggestion) (se de : Entry)
    (hreal : cfg.dry_run = false)
    (hsrc : lookupFS st.fs (joinRel cfg.base_path s.source_path) = some se)
    (hdest : lookupFS st.fs (joinRel cfg.base_path s.destination_path) = some de)
    (hdk : ¬ de.kind = .dir)
    (hso : shouldOverwrite st.fs (joinRel cfg.base_path s.source_path)
      (joinRel cfg.base_path s.destination_path) = true)
    (hpre : ∀ q ∈ pathPrefixes (parentPath (joinRel cfg.base_path s.destination_path)),
      isDirAt st.fs q = true) :
    moveFile cfg st now s =
      ({ fs := movePathFS (removeFS st.fs (joinRel cfg.base_path s.destination_path))
           (joinRel cfg.base_path s.source_path)
           (joinRel cfg.base_path s.destination_path),
         backups :=
           if cfg.backup_enabled = true then
             writeAssoc st.backups (backupFileName now)
               ⟨isoStamp now, "move", joinRel cfg.base_path s.source_path,
                 joinRel cfg.base_path s.destination_path,
                 statSizeFS st.fs (joinRel cfg.base_path s.source_path)⟩
           else st.backups,
         reports := st.reports },
       ⟨true, "move", joinRel cfg.base_path s.source_path,
         joinRel cfg.base_path s.destination_path, none,
         some (fileSizeFS st.fs (joinRel cfg.base_path s.source_path))⟩) := by
  have hex : existsFS st.fs (joinRel cfg.base_path s.source_path) = true := by
    unfold existsFS; rw [hsrc]; rfl
  have hexd : existsFS st.fs (joinRel cfg.base_path s.destination_path) = true := by
    unfold existsFS; rw [hdest]; rfl
  unfold moveFile
  dsimp only
  rw [if_neg (by simpa using hex),
    if_neg (by rw [hreal]; exact Bool.false_ne_true),
    mkdirParents_id_of_dirs st.fs now _ hpre]
  dsimp only
  rw [if_pos hexd, if_pos hso, hdest]
  dsimp only
  rw [if_neg hdk]

theorem moveFile_real_unique (cfg : FOConfig) (st : FOState) (now : DT)
    (s : OrganizationSuggestion) (se : Entry)
    (hreal : cfg.dry_run = false)
    (hsrc : lookupFS st.fs (joinRel cfg.base_path s.source_path) = some se)
    (hexd : existsFS st.fs (joinRel cfg.base_path s.destination_path) = true)
    (hso : shouldOverwrite st.fs (joinRel cfg.base_path s.source_path)
      (joinRel cfg.base_path s.destination_path) = false)
    (hpre : ∀ q ∈ pathPrefixes (parentPath (joinRel cfg.base_path s.destination_path)),
      isDirAt st.fs q = true) :
    moveFile cfg st now s =
      ({ fs := movePathFS st.fs (joinRel cfg.base_path s.source_path)
           (getUniqueDestination st.fs (joinRel cfg.base_path s.destination_path)),
         backups :=
           if cfg.backup_enabled = true then
             writeAssoc st.backups (backupFileName now)
               ⟨isoStamp now, "move", joinRel cfg.base_path s.source_path,
                 joinRel cfg.base_path s.destination_path,
                 statSizeFS st.fs (joinRel cfg.base_path s.source_path)⟩
           else st.backups,
         reports := st.reports },
       ⟨true, "move", joinRel cfg.base_path s.source_path,
         getUniqueDestination st.fs (joinRel cfg.base_path s.destination_path), none,
         some (fileSizeFS st.fs (joinRel cfg.base_path s.source_path))⟩) := by
  have hex : existsFS st.fs (joinRel cfg.base_path s.source_path) = true := by
    unfold existsFS; rw [hsrc]; rfl
  unfold moveFile
  dsimp only
  rw [if_neg (by simpa using hex),
    if_neg (by rw [hreal]; exact Bool.false_ne_true),
    mkdirParents_id_of_dirs st.fs now _ hpre]
  dsimp only
  rw [if_pos hexd, if_neg (by simpa using hso)]

theorem moveFile_real_fresh (cfg : FOConfig) (st : FOState) (now : DT)
    (s : OrganizationSuggestion) (se : Entry)
    (hreal : cfg.dry_run = false)
    (hsrc : lookupFS st.fs (joinRel cfg.base_path s.source_path) = some se)
    (hdest : lookupFS st.fs (joinRel cfg.base_path s.destination_path) = none)
    (hpre : ∀ q ∈ pathPrefixes (parentPath (joinRel cfg.base_path s.destination_path)),
      isDirAt st.fs q = true) :
    moveFile cfg st now s =
      ({ fs := movePathFS st.fs (joinRel cfg.base_path s.source_path)
           (joinRel cfg.base_path s.destination_path),
         backups :=
           if cfg.backup_enabled = true then
             writeAssoc st.backups (backupFileName now)
               ⟨isoStamp now, "move", joinRel cfg.base_path s.source_path,
                 joinRel cfg.base_path s.destination_path,
                 statSizeFS st.fs (joinRel cfg.base_path s.source_path)⟩
           else st.backups,
         reports := st.reports },
       ⟨true, "move", joinRel cfg.base_path s.source_path,
         joinRel cfg.base_path s.destination_path, none,
         some (fileSizeFS st.fs (joinRel cfg.base_path s.source_path))⟩) := by
  have hex : existsFS st.fs (joinRel cfg.base_path s.source_path) = true := by
    unfold existsFS; rw [hsrc]; rfl
  have hexd : existsFS st.fs (joinRel cfg.base_path s.destination_path) = false := by
    unfold existsFS; rw [hdest]; rfl
  unfold moveFile
  dsimp only
  rw [if_neg (by simpa using hex),
    if_neg (by rw [hreal]; exact Bool.false_ne_true),
    mkdirParents_id_of_dirs st.fs now _ hpre]
  dsimp only
  rw [if_neg (by simpa using hexd)]

/-! Overwrite-or-disambiguate policy (claim C1). -/

/-- C1: for a real-mode move whose destination already exists as a file,
the engine overwrites the destination exactly when the source is
strictly larger or equally large and strictly newer: in that case the
moved file replaces the destination and every other path is untouched;
otherwise the existing destination is kept unchanged and the source is
moved to the disambiguated path obtained by inserting the zero-padded
two-digit rendering of the smallest counter (from 1) whose candidate
path is unused between the stem and the extension of the destination. -/
theorem moveFile_conflict_policy (cfg : FOConfig) (st : FOState) (now : DT)
    (s : OrganizationSuggestion) (srcP destP : String) (se de : Entry)
    (hsp : srcP = joinRel cfg.base_path s.source_path)
    (hdp : destP = joinRel cfg.base_path s.destination_path)
    (hreal : cfg.dry_run = false)
    (hsrc : lookupFS st.fs srcP = some se)
    (hdest : lookupFS st.fs destP = some de) (hdk : de.kind = .file)
    (hsd : srcP ≠ destP)
    (hsplit : 2 ≤ (splitPath destP).length)
    (hpre : ∀ q ∈ pathPrefixes (parentPath destP), isDirAt st.fs q = true)
    (hchild : ∀ e ∈ st.fs, strStartsWith e.1 (srcP ++ "/") = false) :
    (OverwriteCond se de →
      (moveFile cfg st now s).2.success = true ∧
      (moveFile cfg st now s).2.destination_path = destP ∧
      lookupFS (moveFile cfg st now s).1.fs destP = some se ∧
      lookupFS (moveFile cfg st now s).1.fs srcP = none ∧
      (∀ k, k ≠ srcP → k ≠ destP →
        lookupFS (moveFile cfg st now s).1.fs k = lookupFS st.fs k)) ∧
    (¬ OverwriteCond se de →
      ∃ c, 0 < c ∧
        (moveFile cfg st now s).2.destination_path = candidateName destP c ∧
        existsFS st.fs (candidateName destP c) = false ∧
        (∀ i, 0 < i → i < c → existsFS st.fs (candidateName destP i) = true) ∧
        (moveFile cfg st now s).2.success = true ∧
        lookupFS (moveFile cfg st now s).1.fs destP = some de ∧
        lookupFS (moveFile cfg st now s).1.fs (candidateName destP c) = some se ∧
        lookupFS (moveFile cfg st now s).1.fs srcP = none ∧
        (∀ k, k ≠ srcP → k ≠ candidateName destP c →
          lookupFS (moveFile cfg st now s).1.fs k = lookupFS st.fs k)) := by
  subst hsp hdp
  set srcP := joinRel cfg.base_path s.source_path with hsp
  set destP := joinRel cfg.base_path s.destination_path with hdp
  constructor
  · intro hover
    have hso : shouldOverwrite st.fs srcP destP = true :=
      (shouldOverwrite_iff st.fs srcP destP se de hsrc hdest).mpr hover
    have heq := moveFile_real_overwrite cfg st now s se de hreal hsrc hdest
      (by rw [hdk]; decide) hso hpre
    rw [heq]
    refine ⟨rfl, rfl, ?_, ?_, ?_⟩
    · have hchild2 : ∀ e ∈ removeFS st.fs destP, strStartsWith e.1 (srcP ++ "/") = false :=
        fun e he => hchild e (List.mem_of_mem_filter he)
      rw [lookupFS_movePathFS_dest _ _ _ hchild2 (lookupFS_removeFS_self st.fs destP)]
      rw [lookupFS_removeFS_ne st.fs destP srcP hsd]
      exact hsrc
    · have hchild2 : ∀ e ∈ removeFS st.fs destP, strStartsWith e.1 (srcP ++ "/") = false :=
        fun e he => hchild e (List.mem_of_mem_filter he)
      exact lookupFS_movePathFS_src _ _ _ hchild2 hsd
    · intro k hk1 hk2
      have hchild2 : ∀ e ∈ removeFS st.fs destP, strStartsWith e.1 (srcP ++ "/") = false :=
        fun e he => hchild e (List.mem_of_mem_filter he)
      rw [lookupFS_movePathFS_other _ _ _ _ hchild2 hk1 hk2]
      exact lookupFS_removeFS_ne st.fs destP k hk2
  · intro hover
    have hso : shouldOverwrite st.fs srcP destP = false := by
      cases hq : shouldOverwrite st.fs srcP destP
      · rfl
      · exact absurd ((shouldOverwrite_iff st.fs srcP destP se de hsrc hdest).mp hq) hover
    have hexd : existsFS st.fs destP = true := by
      unfold existsFS; rw [hdest]; rfl
    have heq := moveFile_real_unique cfg st now s se hreal hsrc hexd hso hpre
    rcases getUniqueDestination_spec st.fs destP with ⟨c, hc0, hgu, hcu, hcmin⟩
    have hcne_src : srcP ≠ candidateName destP c := by
      intro hq
      rw [← hq] at hcu
      unfold existsFS at hcu
      rw [hsrc] at hcu
      exact Bool.noConfusion hcu
    have hcne_dest : candidateName destP c ≠ destP :=
      candidateName_ne_dest destP c hsplit
    have hcand_none : lookupFS st.fs (candidateName destP c) = none := by
      unfold existsFS at hcu
      cases hl : lookupFS st.fs (candidateName destP c)
      · rfl
      · rw [hl] at hcu; exact Bool.noConfusion hcu
    refine ⟨c, hc0, ?_, hcu, hcmin, ?_, ?_, ?_, ?_, ?_⟩
    · rw [heq]
      exact congrArg (fun p => p) hgu
    · rw [heq]
    · rw [heq]
      show lookupFS (movePathFS st.fs srcP
        (getUniqueDestination st.fs destP)) destP = some de
      rw [hgu]
      rw [lookupFS_movePathFS_other _ _ _ _ hchild (fun h => hsd h.symm)
        (fun h => hcne_dest h.symm)]
      exact hdest
    · rw [heq]
      show lookupFS (movePathFS st.fs srcP
        (getUniqueDestination st.fs destP)) (candidateName destP c) = some se
      rw [hgu]
      rw [lookupFS_movePathFS_dest _ _ _ hchild hcand_none]
      exact hsrc
    · rw [heq]
      show lookupFS (movePathFS st.fs srcP
        (getUniqueDestination st.fs destP)) srcP = none
      rw [hgu]
      exact lookupFS_movePathFS_src _ _ _ hchild hcne_src
    · intro k hk1 hk2
      rw [heq]
      show lookupFS (movePathFS st.fs srcP
        (getUniqueDestination st.fs destP)) k = lookupFS st.fs k
      rw [hgu]
      exact lookupFS_movePathFS_other _ _ _ _ hchild hk1 hk2

/-- Witness for C1: a 5-byte source moved onto a 9-byte destination is
not overwritten; the source lands at the first unused two-digit
candidate, file.01.mkv. -/
theorem moveFile_conflict_policy_witness :
    ¬ OverwriteCond ⟨.file, 5, 10⟩ ⟨.file, 9, 10⟩ ∧
    (∃ c, 0 < c ∧
      (moveFile ⟨"base", false, true⟩
        ⟨[("base", ⟨.dir, 0, 0⟩), ("base/d", ⟨.dir, 0, 0⟩),
          ("base/src.mkv", ⟨.file, 5, 10⟩), ("base/d/file.mkv", ⟨.file, 9, 10⟩)],
          [], []⟩ ⟨100, 0⟩
        ⟨"src.mkv", "d/file.mkv", "move", 1, "r"⟩).2.destination_path =
        candidateName (joinRel "base" "d/file.mkv") c ∧
      existsFS [("base", ⟨.dir, 0, 0⟩), ("base/d", ⟨.dir, 0, 0⟩),
          ("base/src.mkv", ⟨.file, 5, 10⟩), ("base/d/file.mkv", ⟨.file, 9, 10⟩)]
        (candidateName (joinRel "base" "d/file.mkv") c) = false ∧
      (∀ i, 0 < i → i < c →
        existsFS [("base", ⟨.dir, 0, 0⟩), ("base/d", ⟨.dir, 0, 0⟩),
            ("base/src.mkv", ⟨.file, 5, 10⟩), ("base/d/file.mkv", ⟨.file, 9, 10⟩)]
          (candidateName (joinRel "base" "d/file.mkv") i) = true) ∧
      (moveFile ⟨"base", false, true⟩
        ⟨[("base", ⟨.dir, 0, 0⟩), ("base/d", ⟨.dir, 0, 0⟩),
          ("base/src.mkv", ⟨.file, 5, 10⟩), ("base/d/file.mkv", ⟨.file, 9, 10⟩)],
          [], []⟩ ⟨100, 0⟩
        ⟨"src.mkv", "d/file.mkv", "move", 1, "r"⟩).2.success = true ∧
      lookupFS (moveFile ⟨"base", false, true⟩
        ⟨[("base", ⟨.dir, 0, 0⟩), ("base/d", ⟨.dir, 0, 0⟩),
          ("base/src.mkv", ⟨.file, 5, 10⟩), ("base/d/file.mkv", ⟨.file, 9, 10⟩)],
          [], []⟩ ⟨100, 0⟩
        ⟨"src.mkv", "d/file.mkv", "move", 1, "r"⟩).1.fs
        (joinRel "base" "d/file.mkv") = some ⟨.file, 9, 10⟩ ∧
      lookupFS (moveFile ⟨"base", false, true⟩
        ⟨[("base", ⟨.dir, 0, 0⟩), ("base/d", ⟨.dir, 0, 0⟩),
          ("base/src.mkv", ⟨.file, 5, 10⟩), ("base/d/file.mkv", ⟨.file, 9, 10⟩)],
          [], []⟩ ⟨100, 0⟩
        ⟨"src.mkv", "d/file.mkv", "move", 1, "r"⟩).1.fs
        (candidateName (joinRel "base" "d/file.mkv") c) = some ⟨.file, 5, 10⟩ ∧
      lookupFS (moveFile ⟨"base", false, true⟩
        ⟨[("base", ⟨.dir, 0, 0⟩), ("base/d", ⟨.dir, 0, 0⟩),
          ("base/src.mkv", ⟨.file, 5, 10⟩), ("base/d/file.mkv", ⟨.file, 9, 10⟩)],
          [], []⟩ ⟨100, 0⟩
        ⟨"src.mkv", "d/file.mkv", "move", 1, "r"⟩).1.fs
        (joinRel "base" "src.mkv") = none ∧
      (∀ k, k ≠ joinRel "base" "src.mkv" →
        k ≠ candidateName (joinRel "base" "d/file.mkv") c →
        lookupFS (moveFile ⟨"base", false, true⟩
          ⟨[("base", ⟨.dir, 0, 0⟩), ("base/d", ⟨.dir, 0, 0⟩),
            ("base/src.mkv", ⟨.file, 5, 10⟩), ("base/d/file.mkv", ⟨.file, 9, 10⟩)],
            [], []⟩ ⟨100, 0⟩
          ⟨"src.mkv", "d/file.mkv", "move", 1, "r"⟩).1.fs k =
          lookupFS [("base", ⟨.dir, 0, 0⟩), ("base/d", ⟨.dir, 0, 0⟩),
            ("base/src.mkv", ⟨.file, 5, 10⟩), ("base/d/file.mkv", ⟨.file, 9, 10⟩)] k)) := by
  refine ⟨by decide, ?_⟩
  exact (moveFile_conflict_policy ⟨"base", false, true⟩
    ⟨[("base", ⟨.dir, 0, 0⟩), ("base/d", ⟨.dir, 0, 0⟩),
      ("base/src.mkv", ⟨.file, 5, 10⟩), ("base/d/file.mkv", ⟨.file, 9, 10⟩)],
      [], []⟩ ⟨100, 0⟩
    ⟨"src.mkv", "d/file.mkv", "move", 1, "r"⟩
    (joinRel "base" "src.mkv") (joinRel "base" "d/file.mkv")
    ⟨.file, 5, 10⟩ ⟨.file, 9, 10⟩ rfl rfl rfl (by decide) (by decide) rfl
    (by decide) (by decide) (by decide) (by decide)).2 (by decide)

/-! Undo of the most recent move (claim C2). -/

theorem isSuffixOf_eq_true_iff {α : Type} [BEq α] [LawfulBEq α] (a b : List α) :
    a.isSuffixOf b = true ↔ ∃ t, b = t ++ a := by
  unfold List.isSuffixOf
  rw [isPrefixOf_eq_true_iff]
  constructor
  · rintro ⟨t, ht⟩
    refine ⟨t.reverse, ?_⟩
    have := congrArg List.reverse ht
    simpa using this
  · rintro ⟨t, rfl⟩
    exact ⟨t.reverse, by simp⟩

theorem backupFileName_starts (d : DT) :
    strStartsWith (backupFileName d) "backup_" = true := by
  rw [strStartsWith_iff]
  refine ⟨(secondsStamp d).data ++ (".json" : String).data, ?_⟩
  unfold backupFileName
  simp [String.data_append, List.append_assoc]

theorem backupFileName_ends (d : DT) :
    strEndsWith (backupFileName d) ".json" = true := by
  unfold strEndsWith
  rw [isSuffixOf_eq_true_iff]
  refine ⟨("backup_" : String).data ++ (secondsStamp d).data, ?_⟩
  unfold backupFileName
  simp [String.data_append, List.append_assoc]

/-- Undo after a move whose state has the moved file sitting at the
recorded destination: undo succeeds, moves the file back to the recorded
source, deletes exactly the consumed backup record, and touches nothing
else. -/
theorem undo_after_rename (fsA : FS) (stb : List (String × BackupInfo))
    (rp : List (String × ExecutionReport)) (key : String) (rec : BackupInfo)
    (srcP destP : String) (se : Entry)
    (hkey1 : strStartsWith key "backup_" = true)
    (hkey2 : strEndsWith key ".json" = true)
    (hmax : ∀ e ∈ stb, e.1 < key)
    (hop : rec.operation = "move") (hrd : rec.destination = destP)
    (hrs : rec.source = srcP)
    (hAdest : lookupFS fsA destP = some se)
    (hAsrc : lookupFS fsA srcP = none)
    (hAchild : ∀ e ∈ fsA, strStartsWith e.1 (destP ++ "/") = false)
    (hsd : destP ≠ srcP) :
    (undoLastOperation ⟨fsA, writeAssoc stb key rec, rp⟩).2 = true ∧
    lookupFS (undoLastOperation ⟨fsA, writeAssoc stb key rec, rp⟩).1.fs srcP =
      some se ∧
    lookupFS (undoLastOperation ⟨fsA, writeAssoc stb key rec, rp⟩).1.fs destP =
      none ∧
    (∀ k, k ≠ srcP → k ≠ destP →
      lookupFS (undoLastOperation ⟨fsA, writeAssoc stb key rec, rp⟩).1.fs k =
        lookupFS fsA k) ∧
    (undoLastOperation ⟨fsA, writeAssoc stb key rec, rp⟩).1.backups = stb ∧
    (undoLastOperation ⟨fsA, writeAssoc stb key rec, rp⟩).1.reports = rp := by
  have hfilter : (writeAssoc stb key rec).filter
      (fun e => strStartsWith e.1 "backup_" && strEndsWith e.1 ".json") =
      (key, rec) :: (stb.filter (fun e => e.1 ≠ key)).filter
        (fun e => strStartsWith e.1 "backup_" && strEndsWith e.1 ".json") := by
    unfold writeAssoc
    rw [List.filter_cons_of_pos (by rw [hkey1, hkey2]; rfl)]
  have hpick : pickLatest ((writeAssoc stb key rec).filter
      (fun e => strStartsWith e.1 "backup_" && strEndsWith e.1 ".json")) =
      some (key, rec) := by
    rw [hfilter]
    apply pickLatest_cons_max
    intro x hx
    exact hmax x (List.mem_of_mem_filter (List.mem_of_mem_filter hx))
  have hexd : existsFS fsA rec.destination = true := by
    unfold existsFS
    rw [hrd, hAdest]
    rfl
  have hcond : (rec.operation = "move" && existsFS fsA rec.destination) = true := by
    rw [hexd, hop]
    rfl
  have hundo : undoLastOperation ⟨fsA, writeAssoc stb key rec, rp⟩ =
      (⟨movePathFS fsA rec.destination rec.source,
        (writeAssoc stb key rec).eraseP (fun e => e.1 = key), rp⟩, true) := by
    unfold undoLastOperation
    dsimp only
    rw [hpick]
    dsimp only
    rw [if_pos hcond]
  rw [hundo]
  have herase : (writeAssoc stb key rec).eraseP (fun e => e.1 = key) = stb := by
    unfold writeAssoc
    rw [List.eraseP_cons,
      show (decide (((key, rec) : String × BackupInfo).1 = key)) = true by simp]
    show List.filter (fun e => decide (e.1 ≠ key)) stb = stb
    apply List.filter_eq_self.mpr
    intro e he
    have hlt := hmax e he
    simpa using ne_of_lt hlt
  refine ⟨rfl, ?_, ?_, ?_, by dsimp only; rw [herase], rfl⟩
  · dsimp only
    rw [hrd, hrs]
    rw [lookupFS_movePathFS_dest fsA destP srcP hAchild hAsrc]
    exact hAdest
  · dsimp only
    rw [hrd, hrs]
    exact lookupFS_movePathFS_src fsA destP srcP hAchild hsd
  · intro k hk1 hk2
    dsimp only
    rw [hrd, hrs]
    exact lookupFS_movePathFS_other fsA destP srcP k hAchild hk2 hk1

theorem movePathFS_no_children_under_dest (fs : FS) (srcP destP : String)
    (hchild_src : ∀ e ∈ fs, strStartsWith e.1 (srcP ++ "/") = false)
    (hchild_dest : ∀ e ∈ fs, strStartsWith e.1 (destP ++ "/") = false) :
    ∀ e ∈ movePathFS fs srcP destP, strStartsWith e.1 (destP ++ "/") = false := by
  intro e he
  rcases List.mem_map.mp he with ⟨x, hx, rfl⟩
  by_cases h1 : x.1 = srcP
  · rw [if_pos h1]
    show strStartsWith destP (destP ++ "/") = false
    apply not_strStartsWith_of_longer
    rw [String.data_append]
    have h2 : ("/" : String).data.length = 1 := rfl
    rw [List.length_append]
    omega
  · rw [if_neg h1, hchild_src x hx]
    simp only [Bool.false_eq_true, if_false]
    exact hchild_dest x hx

/-- C2 amended: for a real-mode move with backups enabled whose
destination either did not exist or was overwritten (no disambiguation
happened), invoking undo immediately afterward succeeds, restores the
moved file to its original source path, removes it from the destination,
deletes the consumed backup record, and changes nothing else; moreover
undo consults only the single most recent backup record and, whenever
that record is not a move or its recorded destination no longer exists,
returns failure and mutates nothing. -/
theorem moveFile_undo_roundtrip (cfg : FOConfig) (st : FOState) (now : DT)
    (s : OrganizationSuggestion) (srcP destP : String) (se : Entry)
    (hsp : srcP = joinRel cfg.base_path s.source_path)
    (hdp : destP = joinRel cfg.base_path s.destination_path)
    (hreal : cfg.dry_run = false) (hbk : cfg.backup_enabled = true)
    (hsrc : lookupFS st.fs srcP = some se) (hsd : srcP ≠ destP)
    (hpre : ∀ q ∈ pathPrefixes (parentPath destP), isDirAt st.fs q = true)
    (hchild_src : ∀ e ∈ st.fs, strStartsWith e.1 (srcP ++ "/") = false)
    (hchild_dest : ∀ e ∈ st.fs, strStartsWith e.1 (destP ++ "/") = false)
    (hbmax : ∀ e ∈ st.backups, e.1 < backupFileName now)
    (hcase : lookupFS st.fs destP = none ∨
      ∃ de, lookupFS st.fs destP = some de ∧ ¬ de.kind = .dir ∧
        shouldOverwrite st.fs srcP destP = true) :
    ((moveFile cfg st now s).2.success = true ∧
     (undoLastOperation (moveFile cfg st now s).1).2 = true ∧
     lookupFS (undoLastOperation (moveFile cfg st now s).1).1.fs srcP = some se ∧
     lookupFS (undoLastOperation (moveFile cfg st now s).1).1.fs destP = none ∧
     (∀ k, k ≠ srcP → k ≠ destP →
       lookupFS (undoLastOperation (moveFile cfg st now s).1).1.fs k =
         lookupFS st.fs k) ∧
     (undoLastOperation (moveFile cfg st now s).1).1.backups = st.backups ∧
     (undoLastOperation (moveFile cfg st now s).1).1.reports = st.reports) ∧
    (∀ st' : FOState, ∀ k r, pickLatest (st'.backups.filter (fun e =>
        strStartsWith e.1 "backup_" && strEndsWith e.1 ".json")) = some (k, r) →
      (¬ r.operation = "move" ∨ existsFS st'.fs r.destination = false) →
      undoLastOperation st' = (st', false)) := by
  constructor
  · subst hsp hdp
    set srcP := joinRel cfg.base_path s.source_path with hsp
    set destP := joinRel cfg.base_path s.destination_path with hdp
    rcases hcase with hdest | ⟨de, hdest, hdk, hso⟩
    · have heq := moveFile_real_fresh cfg st now s se hreal hsrc hdest hpre
      rw [heq, if_pos hbk]
      have hAdest : lookupFS (movePathFS st.fs srcP destP) destP = some se := by
        rw [lookupFS_movePathFS_dest st.fs srcP destP hchild_src hdest]
        exact hsrc
      have hAsrc : lookupFS (movePathFS st.fs srcP destP) srcP = none :=
        lookupFS_movePathFS_src st.fs srcP destP hchild_src hsd
      have hAchild := movePathFS_no_children_under_dest st.fs srcP destP
        hchild_src hchild_dest
      have hu := undo_after_rename (movePathFS st.fs srcP destP) st.backups
        st.reports (backupFileName now)
        ⟨isoStamp now, "move", srcP, destP, statSizeFS st.fs srcP⟩
        srcP destP se (backupFileName_starts now) (backupFileName_ends now)
        hbmax rfl rfl rfl hAdest hAsrc hAchild (fun h => hsd h.symm)
      refine ⟨rfl, hu.1, hu.2.1, hu.2.2.1, ?_, hu.2.2.2.2.1, hu.2.2.2.2.2⟩
      intro k hk1 hk2
      rw [hu.2.2.2.1 k hk1 hk2]
      exact lookupFS_movePathFS_other st.fs srcP destP k hchild_src hk1 hk2
    · have heq := moveFile_real_overwrite cfg st now s se de hreal hsrc hdest
        hdk hso hpre
      rw [heq, if_pos hbk]
      have hchild_src2 : ∀ e ∈ removeFS st.fs destP,
          strStartsWith e.1 (srcP ++ "/") = false :=
        fun e he => hchild_src e (List.mem_of_mem_filter he)
      have hchild_dest2 : ∀ e ∈ removeFS st.fs destP,
          strStartsWith e.1 (destP ++ "/") = false :=
        fun e he => hchild_dest e (List.mem_of_mem_filter he)
      have hAdest : lookupFS (movePathFS (removeFS st.fs destP) srcP destP) destP =
          some se := by
        rw [lookupFS_movePathFS_dest _ srcP destP hchild_src2
          (lookupFS_removeFS_self st.fs destP)]
        rw [lookupFS_removeFS_ne st.fs destP srcP hsd]
        exact hsrc
      have hAsrc : lookupFS (movePathFS (removeFS st.fs destP) srcP destP) srcP =
          none :=
        lookupFS_movePathFS_src _ srcP destP hchild_src2 hsd
      have hAchild := movePathFS_no_children_under_dest (removeFS st.fs destP)
        srcP destP hchild_src2 hchild_dest2
      have hu := undo_after_rename (movePathFS (removeFS st.fs destP) srcP destP)
        st.backups st.reports (backupFileName now)
        ⟨isoStamp now, "move", srcP, destP, statSizeFS st.fs srcP⟩
        srcP destP se (backupFileName_starts now) (backupFileName_ends now)
        hbmax rfl rfl rfl hAdest hAsrc hAchild (fun h => hsd h.symm)
      refine ⟨rfl, hu.1, hu.2.1, hu.2.2.1, ?_, hu.2.2.2.2.1, hu.2.2.2.2.2⟩
      intro k hk1 hk2
      rw [hu.2.2.2.1 k hk1 hk2]
      rw [lookupFS_movePathFS_other _ srcP destP k hchild_src2 hk1 hk2]
      exact lookupFS_removeFS_ne st.fs destP k hk2
  · intro st' k r hpick hfail
    have hcond : (decide (r.operation = "move") && existsFS st'.fs r.destination) =
        false := by
      rcases hfail with h | h
      · simp [h]
      · simp [h]
    unfold undoLastOperation
    dsimp only
    rw [hpick]
    dsimp only
    rw [if_neg (by rw [hcond]; exact Bool.false_ne_true)]

/-- C2 fails as stated on a disambiguated move: a 5-byte source moved
onto an existing 9-byte destination is placed at file.01.mkv, yet undo
still reports success and moves the pre-existing destination file to the
source path, so the moved file is neither restored to its source (the
source now holds the 9-byte file) nor removed from the destination area
(it remains at the disambiguated path). -/
theorem undo_roundtrip_cex :
    (moveFile ⟨"base", false, true⟩
      ⟨[("base", ⟨.dir, 0, 0⟩), ("base/d", ⟨.dir, 0, 0⟩),
        ("base/src.mkv", ⟨.file, 5, 10⟩), ("base/d/file.mkv", ⟨.file, 9, 10⟩)],
        [], []⟩ ⟨100, 0⟩
      ⟨"src.mkv", "d/file.mkv", "move", 1, "r"⟩).2.success = true ∧
    (undoLastOperation (moveFile ⟨"base", false, true⟩
      ⟨[("base", ⟨.dir, 0, 0⟩), ("base/d", ⟨.dir, 0, 0⟩),
        ("base/src.mkv", ⟨.file, 5, 10⟩), ("base/d/file.mkv", ⟨.file, 9, 10⟩)],
        [], []⟩ ⟨100, 0⟩
      ⟨"src.mkv", "d/file.mkv", "move", 1, "r"⟩).1).2 = true ∧
    lookupFS (undoLastOperation (moveFile ⟨"base", false, true⟩
      ⟨[("base", ⟨.dir, 0, 0⟩), ("base/d", ⟨.dir, 0, 0⟩),
        ("base/src.mkv", ⟨.file, 5, 10⟩), ("base/d/file.mkv", ⟨.file, 9, 10⟩)],
        [], []⟩ ⟨100, 0⟩
      ⟨"src.mkv", "d/file.mkv", "move", 1, "r"⟩).1).1.fs "base/src.mkv" =
      some ⟨.file, 9, 10⟩ ∧
    lookupFS (undoLastOperation (moveFile ⟨"base", false, true⟩
      ⟨[("base", ⟨.dir, 0, 0⟩), ("base/d", ⟨.dir, 0, 0⟩),
        ("base/src.mkv", ⟨.file, 5, 10⟩), ("base/d/file.mkv", ⟨.file, 9, 10⟩)],
        [], []⟩ ⟨100, 0⟩
      ⟨"src.mkv", "d/file.mkv", "move", 1, "r"⟩).1).1.fs "base/d/file.01.mkv" =
      some ⟨.file, 5, 10⟩ ∧
    lookupFS [("base", ⟨.dir, 0, 0⟩), ("base/d", ⟨.dir, 0, 0⟩),
        ("base/src.mkv", ⟨.file, 5, 10⟩), ("base/d/file.mkv", ⟨.file, 9, 10⟩)]
      "base/src.mkv" = some ⟨.file, 5, 10⟩ := by
  decide

/-- Witness for the amended C2 at a concrete input: moving onto a fresh
destination and undoing restores the 5-byte file at its source path. -/
theorem moveFile_undo_roundtrip_witness :
    lookupFS [("base", ⟨.dir, 0, 0⟩), ("base/d", ⟨.dir, 0, 0⟩),
        ("base/src.mkv", ⟨.file, 5, 10⟩)] (joinRel "base" "src.mkv") =
      some ⟨.file, 5, 10⟩ ∧
    (undoLastOperation (moveFile ⟨"base", false, true⟩
      ⟨[("base", ⟨.dir, 0, 0⟩), ("base/d", ⟨.dir, 0, 0⟩),
        ("base/src.mkv", ⟨.file, 5, 10⟩)], [], []⟩ ⟨100, 0⟩
      ⟨"src.mkv", "d/file.mkv", "move", 1, "r"⟩).1).2 = true ∧
    lookupFS (undoLastOperation (moveFile ⟨"base", false, true⟩
      ⟨[("base", ⟨.dir, 0, 0⟩), ("base/d", ⟨.dir, 0, 0⟩),
        ("base/src.mkv", ⟨.file, 5, 10⟩)], [], []⟩ ⟨100, 0⟩
      ⟨"src.mkv", "d/file.mkv", "move", 1, "r"⟩).1).1.fs
      (joinRel "base" "src.mkv") = some ⟨.file, 5, 10⟩ ∧
    (undoLastOperation (moveFile ⟨"base", false, true⟩
      ⟨[("base", ⟨.dir, 0, 0⟩), ("base/d", ⟨.dir, 0, 0⟩),
        ("base/src.mkv", ⟨.file, 5, 10⟩)], [], []⟩ ⟨100, 0⟩
      ⟨"src.mkv", "d/file.mkv", "move", 1, "r"⟩).1).1.backups = [] := by
  refine ⟨by decide, ?_, ?_, ?_⟩
  · exact ((moveFile_undo_roundtrip ⟨"base", false, true⟩
      ⟨[("base", ⟨.dir, 0, 0⟩), ("base/d", ⟨.dir, 0, 0⟩),
        ("base/src.mkv", ⟨.file, 5, 10⟩)], [], []⟩ ⟨100, 0⟩
      ⟨"src.mkv", "d/file.mkv", "move", 1, "r"⟩
      (joinRel "base" "src.mkv") (joinRel "base" "d/file.mkv") ⟨.file, 5, 10⟩
      rfl rfl rfl rfl (by decide) (by decide) (by decide) (by decide)
      (by decide) (by decide) (Or.inl (by decide))).1).2.1
  · exact ((moveFile_undo_roundtrip ⟨"base", false, true⟩
      ⟨[("base", ⟨.dir, 0, 0⟩), ("base/d", ⟨.dir, 0, 0⟩),
        ("base/src.mkv", ⟨.file, 5, 10⟩)], [], []⟩ ⟨100, 0⟩
      ⟨"src.mkv", "d/file.mkv", "move", 1, "r"⟩
      (joinRel "base" "src.mkv") (joinRel "base" "d/file.mkv") ⟨.file, 5, 10⟩
      rfl rfl rfl rfl (by decide) (by decide) (by decide) (by decide)
      (by decide) (by decide) (Or.inl (by decide))).1).2.2.1
  · exact ((moveFile_undo_roundtrip ⟨"base", false, true⟩
      ⟨[("base", ⟨.dir, 0, 0⟩), ("base/d", ⟨.dir, 0, 0⟩),
        ("base/src.mkv", ⟨.file, 5, 10⟩)], [], []⟩ ⟨100, 0⟩
      ⟨"src.mkv", "d/file.mkv", "move", 1, "r"⟩
      (joinRel "base" "src.mkv") (joinRel "base" "d/file.mkv") ⟨.file, 5, 10⟩
      rfl rfl rfl rfl (by decide) (by decide) (by decide) (by decide)
      (by decide) (by decide) (Or.inl (by decide))).1).2.2.2.2.2.1

/-! Backup record persistence (claim C8). -/

theorem moveFile_real_backups (cfg : FOConfig) (st : FOState) (now : DT)
    (s : OrganizationSuggestion) (se : Entry)
    (hreal : cfg.dry_run = false) (hbk : cfg.backup_enabled = true)
    (hsrc : lookupFS st.fs (joinRel cfg.base_path s.source_path) = some se) :
    (moveFile cfg st now s).1.backups =
      writeAssoc st.backups (backupFileName now)
        ⟨isoStamp now, "move", joinRel cfg.base_path s.source_path,
          joinRel cfg.base_path s.destination_path, se.size⟩ := by
  have hex : existsFS st.fs (joinRel cfg.base_path s.source_path) = true := by
    unfold existsFS; rw [hsrc]; rfl
  have hsize : statSizeFS st.fs (joinRel cfg.base_path s.source_path) = se.size := by
    unfold statSizeFS; rw [hsrc]
  unfold moveFile
  dsimp only
  rw [if_neg (by simpa using hex),
    if_neg (by rw [hreal]; exact Bool.false_ne_true),
    if_pos hbk, hsize]
  rcases hmk : mkdirParents st.fs now
      (parentPath (joinRel cfg.base_path s.destination_path)) with ⟨f, e⟩
  dsimp only
  cases e with
  | some err => rfl
  | none =>
    dsimp only
    by_cases hexd : existsFS f (joinRel cfg.base_path s.destination_path) = true
    · rw [if_pos hexd]
      by_cases hso : shouldOverwrite f (joinRel cfg.base_path s.source_path)
          (joinRel cfg.base_path s.destination_path) = true
      · rw [if_pos hso]
        rcases hld : lookupFS f (joinRel cfg.base_path s.destination_path)
          with _ | de
        · rfl
        · dsimp only
          by_cases hdk : de.kind = .dir
          · rw [if_pos hdk]
          · rw [if_neg hdk]
      · rw [if_neg hso]
    · rw [if_neg hexd]

theorem backupFileName_inj {t1 t2 : DT}
    (h : backupFileName t1 = backupFileName t2) :
    secondsStamp t1 = secondsStamp t2 := by
  apply strExt
  have hd := congrArg String.data h
  unfold backupFileName at hd
  simp only [String.data_append] at hd
  rw [List.append_assoc, List.append_assoc] at hd
  have h1 := List.append_cancel_left hd
  exact List.append_cancel_right h1

/-- C8 amended: each real backup-enabled move persists exactly one
backup record, written before the move mutates anything, whose file name
is derived from the move's second-resolution timestamp and whose content
holds the microsecond timestamp, the operation kind, the resolved source
and destination, and the pre-move source size. Two moves in one run
produce two distinct record files exactly when their timestamps differ
at second resolution; two moves within the same second write the same
file name and the second record overwrites the first. -/
theorem moveFile_backup_records (cfg : FOConfig) (st : FOState) (t1 t2 : DT)
    (s1 s2 : OrganizationSuggestion) (se1 se2 : Entry)
    (hreal : cfg.dry_run = false) (hbk : cfg.backup_enabled = true)
    (hb0 : st.backups = [])
    (hsrc1 : lookupFS st.fs (joinRel cfg.base_path s1.source_path) = some se1)
    (hsrc2 : lookupFS (moveFile cfg st t1 s1).1.fs
      (joinRel cfg.base_path s2.source_path) = some se2) :
    (moveFile cfg st t1 s1).1.backups =
      [(backupFileName t1,
        ⟨isoStamp t1, "move", joinRel cfg.base_path s1.source_path,
          joinRel cfg.base_path s1.destination_path, se1.size⟩)] ∧
    (secondsStamp t1 ≠ secondsStamp t2 →
      (moveFile cfg (moveFile cfg st t1 s1).1 t2 s2).1.backups =
        [(backupFileName t2,
          ⟨isoStamp t2, "move", joinRel cfg.base_path s2.source_path,
            joinRel cfg.base_path s2.destination_path, se2.size⟩),
         (backupFileName t1,
          ⟨isoStamp t1, "move", joinRel cfg.base_path s1.source_path,
            joinRel cfg.base_path s1.destination_path, se1.size⟩)]) ∧
    (secondsStamp t1 = secondsStamp t2 →
      (moveFile cfg (moveFile cfg st t1 s1).1 t2 s2).1.backups =
        [(backupFileName t2,
          ⟨isoStamp t2, "move", joinRel cfg.base_path s2.source_path,
            joinRel cfg.base_path s2.destination_path, se2.size⟩)]) := by
  have h1 : (moveFile cfg st t1 s1).1.backups =
      [(backupFileName t1,
        ⟨isoStamp t1, "move", joinRel cfg.base_path s1.source_path,
          joinRel cfg.base_path s1.destination_path, se1.size⟩)] := by
    rw [moveFile_real_backups cfg st t1 s1 se1 hreal hbk hsrc1, hb0]
    rfl
  have h2 : (moveFile cfg (moveFile cfg st t1 s1).1 t2 s2).1.backups =
      writeAssoc (moveFile cfg st t1 s1).1.backups (backupFileName t2)
        ⟨isoStamp t2, "move", joinRel cfg.base_path s2.source_path,
          joinRel cfg.base_path s2.destination_path, se2.size⟩ :=
    moveFile_real_backups cfg (moveFile cfg st t1 s1).1 t2 s2 se2 hreal hbk hsrc2
  refine ⟨h1, ?_, ?_⟩
  · intro hne
    rw [h2, h1]
    unfold writeAssoc
    rw [List.filter_cons_of_pos (by
      simp only [decide_eq_true_eq]
      intro hq
      exact hne (backupFileName_inj hq)), List.filter_nil]
  · intro hsame
    have hkey : backupFileName t1 = backupFileName t2 := by
      unfold backupFileName secondsStamp at *
      rw [show toDec t1.sec = toDec t2.sec from hsame]
    rw [h2, h1]
    unfold writeAssoc
    rw [List.filter_cons_of_neg (by
      simp only [decide_eq_true_eq, Decidable.not_not]
      exact hkey), List.filter_nil]

/-- Witness for the amended C8: two real moves one second apart leave
two backup record files with the recorded pre-move sizes. -/
theorem moveFile_backup_records_witness :
    (⟨"b", false, true⟩ : FOConfig).dry_run = false ∧
    (moveFile ⟨"b", false, true⟩
      (moveFile ⟨"b", false, true⟩
        ⟨[("b", ⟨.dir, 0, 0⟩), ("b/d", ⟨.dir, 0, 0⟩),
          ("b/s1.mkv", ⟨.file, 1, 0⟩), ("b/s2.mkv", ⟨.file, 2, 0⟩)], [], []⟩
        ⟨5, 0⟩ ⟨"s1.mkv", "d/s1.mkv", "move", 1, "r"⟩).1
      ⟨6, 0⟩ ⟨"s2.mkv", "d/s2.mkv", "move", 1, "r"⟩).1.backups =
      [(backupFileName ⟨6, 0⟩,
        ⟨isoStamp ⟨6, 0⟩, "move", joinRel "b" "s2.mkv",
          joinRel "b" "d/s2.mkv", 2⟩),
       (backupFileName ⟨5, 0⟩,
        ⟨isoStamp ⟨5, 0⟩, "move", joinRel "b" "s1.mkv",
          joinRel "b" "d/s1.mkv", 1⟩)] := by
  refine ⟨rfl, ?_⟩
  exact (moveFile_backup_records ⟨"b", false, true⟩
    ⟨[("b", ⟨.dir, 0, 0⟩), ("b/d", ⟨.dir, 0, 0⟩),
      ("b/s1.mkv", ⟨.file, 1, 0⟩), ("b/s2.mkv", ⟨.file, 2, 0⟩)], [], []⟩
    ⟨5, 0⟩ ⟨6, 0⟩ ⟨"s1.mkv", "d/s1.mkv", "move", 1, "r"⟩
    ⟨"s2.mkv", "d/s2.mkv", "move", 1, "r"⟩ ⟨.file, 1, 0⟩ ⟨.file, 2, 0⟩
    rfl rfl rfl (by decide) (by decide)).2.1 (by decide)

/-- C8 fails as stated: two distinct real moves executed in the same
second (distinct microseconds) in one run both succeed but leave a
single backup record file, because the record file name only has second
resolution and the second write overwrites the first. -/
theorem moveFile_backup_collision_cex :
    ((⟨5, 1⟩ : DT) ≠ (⟨5, 2⟩ : DT)) ∧
    (executePlan ⟨"b", false, true⟩
      ⟨[("b", ⟨.dir, 0, 0⟩), ("b/d", ⟨.dir, 0, 0⟩),
        ("b/s1.mkv", ⟨.file, 1, 0⟩), ("b/s2.mkv", ⟨.file, 2, 0⟩)], [], []⟩
      ⟨"X", none, [⟨"s1.mkv", "d/s1.mkv", "move", 1, "r"⟩,
        ⟨"s2.mkv", "d/s2.mkv", "move", 1, "r"⟩], "", []⟩
      "" ⟨7, 0⟩ ⟨8, 0⟩ [⟨5, 1⟩, ⟨5, 2⟩]).2.successful_operations = 2 ∧
    (executePlan ⟨"b", false, true⟩
      ⟨[("b", ⟨.dir, 0, 0⟩), ("b/d", ⟨.dir, 0, 0⟩),
        ("b/s1.mkv", ⟨.file, 1, 0⟩), ("b/s2.mkv", ⟨.file, 2, 0⟩)], [], []⟩
      ⟨"X", none, [⟨"s1.mkv", "d/s1.mkv", "move", 1, "r"⟩,
        ⟨"s2.mkv", "d/s2.mkv", "move", 1, "r"⟩], "", []⟩
      "" ⟨7, 0⟩ ⟨8, 0⟩ [⟨5, 1⟩, ⟨5, 2⟩]).1.backups.length = 1 := by
  decide

end OrganizeMedia
